import Mathlib

/-!
Verification development for the mancala-solver repository.

The C++ sources are shallowly embedded:
  * `SinglePlayerBoardState`, `BoardState`  — src/include/mancala-solver/board_state.h
  * `TurnResult`, `TurnExecutor` sowing     — src/include/mancala-solver/game_mechanics.h
  * `GameMechanicsExecutor`                 — src/include/mancala-solver/game_mechanics.h
  * `Solver`                                — src/include/mancala-solver/solver.h

Machine integers (`int`, `std::size_t`) are modelled as `Int` / `Nat`.
`std::vector::at` is bounds checked in C++ (it throws on a bad index); every
access performed on a reachable path is in range, and out-of-range accesses are
modelled as `List.getD`-reads of `0` / no-op writes.  Loops are modelled as
structural recursion; `while` loops whose bound is data dependent take an
explicit fuel argument whose sufficiency is proved below.  A C++ `throw`
(the `std::logic_error` in `TurnExecutor::playTurn`) is modelled as `none`.
-/

/-- One player's half of the board: a row of pits and a bank
(`SinglePlayerBoardState` in board_state.h). -/
structure SinglePlayerBoardState where
  pits : List Int
  bank : Int
deriving DecidableEq, Repr

namespace SinglePlayerBoardState

/-- `addStoneToPit`: `pits_.at(pit_id)++`. -/
def addStoneToPit (s : SinglePlayerBoardState) (pit_id : Nat) : SinglePlayerBoardState :=
  { s with pits := s.pits.set pit_id (s.pits.getD pit_id 0 + 1) }

/-- `clearStonesFromPit`: `pits_.at(pit_id) = 0`. -/
def clearStonesFromPit (s : SinglePlayerBoardState) (pit_id : Nat) : SinglePlayerBoardState :=
  { s with pits := s.pits.set pit_id 0 }

/-- `getNumPits`: `pits_.size()`. -/
def getNumPits (s : SinglePlayerBoardState) : Nat :=
  s.pits.length

/-- `getNumStonesInPit`: `pits_.at(pit_id)`. -/
def getNumStonesInPit (s : SinglePlayerBoardState) (pit_id : Nat) : Int :=
  s.pits.getD pit_id 0

/-- `sumOfStonesInPits`: a running sum over the pits. -/
def sumOfStonesInPits (s : SinglePlayerBoardState) : Int :=
  s.pits.foldl (· + ·) 0

/-- `addStonesToBank`: `bank_ += num_stones`. -/
def addStonesToBank (s : SinglePlayerBoardState) (num_stones : Int) : SinglePlayerBoardState :=
  { s with bank := s.bank + num_stones }

/-- `getNumStonesInBank`. -/
def getNumStonesInBank (s : SinglePlayerBoardState) : Int :=
  s.bank

end SinglePlayerBoardState

/-- The full board: the two players' sides (`BoardState` in board_state.h).
The C++ constructor enforces that both sides have the same number of pits;
theorems that depend on that carry it as a hypothesis. -/
structure BoardState where
  player0 : SinglePlayerBoardState
  player1 : SinglePlayerBoardState
deriving DecidableEq, Repr

namespace BoardState

/-- `getNumPits`: the pit count of player 0's side (equal to player 1's by the
constructor invariant). -/
def getNumPits (bs : BoardState) : Nat :=
  bs.player0.getNumPits

/-- The side belonging to the given player (the `active_player_board_state`
reference selection in `TurnExecutor::playTurn`). -/
def activeSide (player_index : Nat) (bs : BoardState) : SinglePlayerBoardState :=
  if player_index = 0 then bs.player0 else bs.player1

/-- The side opposing the given player. -/
def opposingSide (player_index : Nat) (bs : BoardState) : SinglePlayerBoardState :=
  if player_index = 0 then bs.player1 else bs.player0

/-- Rebuild a `BoardState` from the (active, opposing) pair of a given player:
the write-back of the two mutable references in `TurnExecutor::playTurn`. -/
def reassemble (player_index : Nat) (active opposing : SinglePlayerBoardState) : BoardState :=
  if player_index = 0 then ⟨active, opposing⟩ else ⟨opposing, active⟩

end BoardState

/-- Result of one turn (`TurnResult` in game_mechanics.h). -/
structure TurnResult where
  valid : Bool
  ended_in_bank : Bool
deriving DecidableEq, Repr

namespace TurnResult

/-- `TurnResult::makeInvalidResult`. -/
def makeInvalidResult : TurnResult := ⟨false, false⟩

/-- `TurnResult::makeNotEndedInBankResult`. -/
def makeNotEndedInBankResult : TurnResult := ⟨true, false⟩

/-- `TurnResult::makeEndedInBankResult`. -/
def makeEndedInBankResult : TurnResult := ⟨true, true⟩

end TurnResult

namespace TurnExecutor

/-- The capture check at the end of `dropStonesOnActivePlayerBoard`
(game_mechanics.h lines 132-148), run when the last sown stone landed on the
active player's side with `current_pit_index = final_pit_index + 1`. -/
def captureCheckFn (active opposing : SinglePlayerBoardState) (final_pit_index : Nat) :
    SinglePlayerBoardState × SinglePlayerBoardState :=
  let opposing_pit_index := opposing.getNumPits - final_pit_index - 1
  let num_stones_in_opposing_pit := opposing.getNumStonesInPit opposing_pit_index
  if active.getNumStonesInPit final_pit_index = 1 ∧ 0 < num_stones_in_opposing_pit then
    ((active.addStonesToBank (1 + num_stones_in_opposing_pit)).clearStonesFromPit final_pit_index,
      opposing.clearStonesFromPit opposing_pit_index)
  else
    (active, opposing)

/-- `TurnExecutor::dropStonesOnActivePlayerBoard`.  The stone count is `int` in
C++ but is strictly positive at every call site (`playTurn` checks
`num_stones <= 0` first, and both loop call sites are guarded by
`num_stones > 0`), so it is modelled as a `Nat` recursion argument.  The
`num_stones = 0` case is the code after the sowing loop (the capture check,
reached with `current_pit_index` one past the last filled pit); the
`cur = getNumPits` case is the bank placement that either ends the turn or
breaks out to the opposing player's side with stones left over (`none`). -/
def dropStonesOnActivePlayerBoard (active opposing : SinglePlayerBoardState)
    (current_pit_index : Nat) :
    Nat → Option TurnResult × SinglePlayerBoardState × SinglePlayerBoardState × Nat
  | 0 => (some TurnResult.makeNotEndedInBankResult,
          (captureCheckFn active opposing (current_pit_index - 1)).1,
          (captureCheckFn active opposing (current_pit_index - 1)).2, 0)
  | num_stones + 1 =>
    if current_pit_index = active.getNumPits then
      let active' := active.addStonesToBank 1
      if num_stones = 0 then
        (some TurnResult.makeEndedInBankResult, active', opposing, 0)
      else
        (none, active', opposing, num_stones)
    else
      dropStonesOnActivePlayerBoard (active.addStoneToPit current_pit_index) opposing
        (current_pit_index + 1) num_stones

/-- `TurnExecutor::dropStonesOnOpposingPlayerBoard`: sows into the opposing
pits from index `current_pit_index` (0 at the call site); ends the turn if the
stones run out, otherwise hands the remainder back (`none`). -/
def dropStonesOnOpposingPlayerBoard (opposing : SinglePlayerBoardState)
    (current_pit_index : Nat) :
    Nat → Option TurnResult × SinglePlayerBoardState × Nat
  | 0 => (some TurnResult.makeNotEndedInBankResult, opposing, 0)
  | num_stones + 1 =>
    if current_pit_index = opposing.getNumPits then
      (none, opposing, num_stones + 1)
    else
      dropStonesOnOpposingPlayerBoard (opposing.addStoneToPit current_pit_index)
        (current_pit_index + 1) num_stones

/-- The `while (num_stones > 0)` loop of `TurnExecutor::playTurn`
(game_mechanics.h lines 82-101): alternate the two drop phases until one of
them reports a result.  `none` models the `std::logic_error` thrown when the
loop exits with zero stones, and also fuel exhaustion (the fuel passed by
`playTurn` is proved sufficient below, so the two are not conflated in any
reachable evaluation). -/
def sowLoop : Nat → SinglePlayerBoardState → SinglePlayerBoardState → Nat →
    Option (TurnResult × SinglePlayerBoardState × SinglePlayerBoardState)
  | 0, _, _, _ => none
  | _ + 1, _, _, 0 => none
  | fuel + 1, active, opposing, num_stones + 1 =>
    match dropStonesOnOpposingPlayerBoard opposing 0 (num_stones + 1) with
    | (some result, opposing', _) => some (result, active, opposing')
    | (none, opposing', num_stones') =>
      match dropStonesOnActivePlayerBoard active opposing' 0 num_stones' with
      | (some result, active', opposing'', _) => some (result, active', opposing'')
      | (none, active', opposing'', num_stones'') => sowLoop fuel active' opposing'' num_stones''

/-- `TurnExecutor::playTurn`.  Returns `none` exactly when the C++ code would
throw the `std::logic_error` (proved unreachable below). -/
def playTurn (player_index pit_index : Nat) (board_state : BoardState) :
    Option (TurnResult × BoardState) :=
  if player_index ≠ 0 ∧ player_index ≠ 1 then
    some (TurnResult.makeInvalidResult, board_state)
  else if board_state.getNumPits ≤ pit_index then
    some (TurnResult.makeInvalidResult, board_state)
  else
    let active := board_state.activeSide player_index
    let opposing := board_state.opposingSide player_index
    let num_stones := active.getNumStonesInPit pit_index
    let active := active.clearStonesFromPit pit_index
    if num_stones ≤ 0 then
      some (TurnResult.makeInvalidResult, BoardState.reassemble player_index active opposing)
    else
      match dropStonesOnActivePlayerBoard active opposing (pit_index + 1) num_stones.toNat with
      | (some result, active', opposing', _) =>
        some (result, BoardState.reassemble player_index active' opposing')
      | (none, active', opposing', num_stones') =>
        match sowLoop num_stones' active' opposing' num_stones' with
        | some (result, active'', opposing'') =>
          some (result, BoardState.reassemble player_index active'' opposing'')
        | none => none

end TurnExecutor

/-!
## Specification-side sowing model

The spec describes sowing as a walk over a single counterclockwise cycle of
`2N+1` slots: the mover's pits `0..N-1` (positions `0..N-1`), the mover's bank
(position `N`), and the opponent's pits `0..N-1` (positions `N+1..2N`); the
opponent's bank is not a slot.  The definitions below follow the spec's words
and are compared with the code's two-phase implementation by refinement
theorems.
-/

/-- A slot of the sowing cycle, as described by the spec: one of the mover's
pits, the mover's bank, or one of the opponent's pits. -/
inductive Slot where
  | ownPit (i : Nat)
  | ownBank
  | oppPit (i : Nat)
deriving DecidableEq, Repr

/-- The slot at position `p` of the counterclockwise cycle for side size `N`. -/
def slotOfPos (N p : Nat) : Slot :=
  if p < N then Slot.ownPit p else if p = N then Slot.ownBank else Slot.oppPit (p - N - 1)

/-- Drop one stone into the slot at position `p` (spec-side). -/
def placeStone (N p : Nat) (st : SinglePlayerBoardState × SinglePlayerBoardState) :
    SinglePlayerBoardState × SinglePlayerBoardState :=
  match slotOfPos N p with
  | Slot.ownPit i => (st.1.addStoneToPit i, st.2)
  | Slot.ownBank => (st.1.addStonesToBank 1, st.2)
  | Slot.oppPit i => (st.1, st.2.addStoneToPit i)

/-- Sow `k` stones one at a time counterclockwise starting at position `p`
(spec-side description of sowing). -/
def sowStones (N : Nat) : Nat → Nat →
    SinglePlayerBoardState × SinglePlayerBoardState →
    SinglePlayerBoardState × SinglePlayerBoardState
  | _, 0, st => st
  | p, k + 1, st => sowStones N ((p + 1) % (2 * N + 1)) k (placeStone N p st)

/-- The slot receiving the last of `k ≥ 1` stones sown from position `start`. -/
def lastSlot (N start k : Nat) : Slot :=
  slotOfPos N ((start + (k - 1)) % (2 * N + 1))

/-- Spec-side description of a whole valid sowing turn: sow the `k` stones,
then resolve by where the last stone landed — mover's bank ends the turn with
`endedInBank`, a mover's pit runs the capture rule, an opponent's pit just ends
the turn. -/
def specSowResult (N start k : Nat) (a o : SinglePlayerBoardState) :
    TurnResult × SinglePlayerBoardState × SinglePlayerBoardState :=
  let st := sowStones N start k (a, o)
  match lastSlot N start k with
  | Slot.ownBank => (TurnResult.makeEndedInBankResult, st.1, st.2)
  | Slot.ownPit i =>
    let c := TurnExecutor.captureCheckFn st.1 st.2 i
    (TurnResult.makeNotEndedInBankResult, c.1, c.2)
  | Slot.oppPit _ => (TurnResult.makeNotEndedInBankResult, st.1, st.2)

/-- Drop one stone into each of the `k` consecutive pits starting at `cur`
(the effect of one uninterrupted run of either sowing loop). -/
def addRun (s : SinglePlayerBoardState) : Nat → Nat → SinglePlayerBoardState
  | _, 0 => s
  | cur, k + 1 => addRun (s.addStoneToPit cur) (cur + 1) k

/-- The spec's "immediately before receiving that last stone": the two sides
after sowing all but the last of `k` stones from position `start` (spec-side
wording of the capture rule's precondition). -/
def preLastState (N start k : Nat) (a o : SinglePlayerBoardState) :
    SinglePlayerBoardState × SinglePlayerBoardState :=
  sowStones N start (k - 1) (a, o)

namespace SinglePlayerBoardState

@[simp] lemma getNumPits_addStoneToPit (s : SinglePlayerBoardState) (i : Nat) :
    (s.addStoneToPit i).getNumPits = s.getNumPits := by
  simp [addStoneToPit, getNumPits]

@[simp] lemma getNumPits_clearStonesFromPit (s : SinglePlayerBoardState) (i : Nat) :
    (s.clearStonesFromPit i).getNumPits = s.getNumPits := by
  simp [clearStonesFromPit, getNumPits]

@[simp] lemma getNumPits_addStonesToBank (s : SinglePlayerBoardState) (n : Int) :
    (s.addStonesToBank n).getNumPits = s.getNumPits := by
  simp [addStonesToBank, getNumPits]

@[simp] lemma bank_addStoneToPit (s : SinglePlayerBoardState) (i : Nat) :
    (s.addStoneToPit i).bank = s.bank := rfl

@[simp] lemma bank_clearStonesFromPit (s : SinglePlayerBoardState) (i : Nat) :
    (s.clearStonesFromPit i).bank = s.bank := rfl

@[simp] lemma bank_addStonesToBank (s : SinglePlayerBoardState) (n : Int) :
    (s.addStonesToBank n).bank = s.bank + n := rfl

@[simp] lemma pits_addStonesToBank (s : SinglePlayerBoardState) (n : Int) :
    (s.addStonesToBank n).pits = s.pits := rfl

@[simp] lemma sum_addStonesToBank (s : SinglePlayerBoardState) (n : Int) :
    (s.addStonesToBank n).sumOfStonesInPits = s.sumOfStonesInPits := rfl

@[simp] lemma getNumStonesInPit_addStonesToBank (s : SinglePlayerBoardState) (n : Int) (i : Nat) :
    (s.addStonesToBank n).getNumStonesInPit i = s.getNumStonesInPit i := rfl

end SinglePlayerBoardState

@[simp] lemma getNumPits_addRun (s : SinglePlayerBoardState) :
    ∀ (k cur : Nat), (addRun s cur k).getNumPits = s.getNumPits := by
  intro k
  induction k generalizing s with
  | zero => intro cur; rfl
  | succ k ih => intro cur; simpa [addRun] using ih (s.addStoneToPit cur) (cur + 1)

@[simp] lemma bank_addRun (s : SinglePlayerBoardState) :
    ∀ (k cur : Nat), (addRun s cur k).bank = s.bank := by
  intro k
  induction k generalizing s with
  | zero => intro cur; rfl
  | succ k ih => intro cur; simpa [addRun] using ih (s.addStoneToPit cur) (cur + 1)

/-- Unfolding of `addRun` one pit at a time. -/
lemma addRun_succ (s : SinglePlayerBoardState) (cur k : Nat) :
    addRun s cur (k + 1) = addRun (s.addStoneToPit cur) (cur + 1) k := rfl

/-- Behaviour of `dropStonesOnOpposingPlayerBoard`, started at any pit index
`cur` within range with `k ≥ 1` stones: either the stones fit in the remaining
pits (the turn ends, not in the bank), or the remaining pits are filled and the
leftover stones are handed back. -/
lemma dropOpposing_spec (M : Nat) :
    ∀ (k cur : Nat) (o : SinglePlayerBoardState), o.getNumPits = M → cur ≤ M → 1 ≤ k →
    ((k + cur ≤ M →
      TurnExecutor.dropStonesOnOpposingPlayerBoard o cur k =
        (some TurnResult.makeNotEndedInBankResult, addRun o cur k, 0)) ∧
     (M < k + cur →
      TurnExecutor.dropStonesOnOpposingPlayerBoard o cur k =
        (none, addRun o cur (M - cur), k - (M - cur)))) := by
  intro k
  induction k with
  | zero => intro cur o _ _ hk; exact absurd hk (by omega)
  | succ k ih =>
    intro cur o hM hcur _
    by_cases hc : cur = o.getNumPits
    · have hcM : cur = M := by omega
      constructor
      · intro h; omega
      · intro _
        simp only [TurnExecutor.dropStonesOnOpposingPlayerBoard, if_pos hc]
        simp [hcM, addRun]
    · have hcurM : cur < M := by omega
      simp only [TurnExecutor.dropStonesOnOpposingPlayerBoard, if_neg hc]
      rcases Nat.eq_zero_or_pos k with hk0 | hk1
      · subst hk0
        constructor
        · intro _
          simp [TurnExecutor.dropStonesOnOpposingPlayerBoard, addRun_succ, addRun]
        · intro h; omega
      · have ihres := ih (cur + 1) (o.addStoneToPit cur) (by simp [hM]) (by omega) hk1
        constructor
        · intro h
          rw [ihres.1 (by omega)]
          rw [addRun_succ]
        · intro h
          rw [ihres.2 (by omega)]
          have e1 : addRun o cur (M - cur) = addRun (o.addStoneToPit cur) (cur + 1) (M - (cur + 1)) := by
            rw [show M - cur = (M - (cur + 1)) + 1 from by omega, addRun_succ]
          have e2 : k + 1 - (M - cur) = k - (M - (cur + 1)) := by omega
          rw [e1, e2]

/-- Behaviour of `dropStonesOnActivePlayerBoard`, started at pit `cur ≤ N`
with `k ≥ 1` stones: the stones end in a pit (capture check runs), end exactly
in the bank, or overflow past the bank with the leftovers handed back. -/
lemma dropActive_spec (N : Nat) :
    ∀ (k cur : Nat) (a o : SinglePlayerBoardState), a.getNumPits = N → cur ≤ N → 1 ≤ k →
    ((k + cur ≤ N →
      TurnExecutor.dropStonesOnActivePlayerBoard a o cur k =
        (some TurnResult.makeNotEndedInBankResult,
         (TurnExecutor.captureCheckFn (addRun a cur k) o (cur + k - 1)).1,
         (TurnExecutor.captureCheckFn (addRun a cur k) o (cur + k - 1)).2, 0)) ∧
     (k + cur = N + 1 →
      TurnExecutor.dropStonesOnActivePlayerBoard a o cur k =
        (some TurnResult.makeEndedInBankResult, (addRun a cur (N - cur)).addStonesToBank 1, o, 0)) ∧
     (N + 1 < k + cur →
      TurnExecutor.dropStonesOnActivePlayerBoard a o cur k =
        (none, (addRun a cur (N - cur)).addStonesToBank 1, o, k - (N - cur) - 1))) := by
  intro k
  induction k with
  | zero => intro cur a o _ _ hk; exact absurd hk (by omega)
  | succ k ih =>
    intro cur a o hN hcur _
    by_cases hc : cur = a.getNumPits
    · have hcN : cur = N := by omega
      refine ⟨fun h => by omega, fun h => ?_, fun h => ?_⟩
      · have hk0 : k = 0 := by omega
        subst hk0
        simp only [TurnExecutor.dropStonesOnActivePlayerBoard, if_pos hc]
        simp [hcN, addRun]
      · have hk1 : k ≠ 0 := by omega
        simp only [TurnExecutor.dropStonesOnActivePlayerBoard, if_pos hc]
        simp [hk1, hcN, addRun]
    · have hcurN : cur < N := by omega
      simp only [TurnExecutor.dropStonesOnActivePlayerBoard, if_neg hc]
      rcases Nat.eq_zero_or_pos k with hk0 | hk1
      · subst hk0
        refine ⟨fun _ => ?_, fun h => by omega, fun h => by omega⟩
        simp only [TurnExecutor.dropStonesOnActivePlayerBoard, addRun_succ]
        simp [addRun]
      · have ihres := ih (cur + 1) (a.addStoneToPit cur) o (by simp [hN]) (by omega) hk1
        refine ⟨fun h => ?_, fun h => ?_, fun h => ?_⟩
        · rw [ihres.1 (by omega), addRun_succ]
          have : cur + 1 + k - 1 = cur + (k + 1) - 1 := by omega
          rw [this]
        · rw [ihres.2.1 (by omega)]
          have e1 : addRun a cur (N - cur) = addRun (a.addStoneToPit cur) (cur + 1) (N - (cur + 1)) := by
            rw [show N - cur = (N - (cur + 1)) + 1 from by omega, addRun_succ]
          rw [e1]
        · rw [ihres.2.2 (by omega)]
          have e1 : addRun a cur (N - cur) = addRun (a.addStoneToPit cur) (cur + 1) (N - (cur + 1)) := by
            rw [show N - cur = (N - (cur + 1)) + 1 from by omega, addRun_succ]
          have e2 : k + 1 - (N - cur) - 1 = k - (N - (cur + 1)) - 1 := by omega
          rw [e1, e2]

/-- Sowing `k` stones from position `cur` entirely within the mover's own pits
is a straight run over those pits. -/
lemma sow_own_seg (N : Nat) :
    ∀ (k cur : Nat) (a o : SinglePlayerBoardState), cur + k ≤ N →
      sowStones N cur k (a, o) = (addRun a cur k, o) := by
  intro k
  induction k with
  | zero => intro cur a o _; rfl
  | succ k ih =>
    intro cur a o h
    have hcur : cur < N := by omega
    have hslot : slotOfPos N cur = Slot.ownPit cur := by simp [slotOfPos, hcur]
    have hpos : (cur + 1) % (2 * N + 1) = cur + 1 := Nat.mod_eq_of_lt (by omega)
    simp only [sowStones, placeStone, hslot, hpos, addRun_succ]
    exact ih (cur + 1) (a.addStoneToPit cur) o (by omega)

/-- Sowing `k` stones from opposing-pit position `N+1+t` entirely within the
opponent's pits is a straight run over those pits. -/
lemma sow_opp_seg (N : Nat) :
    ∀ (k t : Nat) (a o : SinglePlayerBoardState), t + k ≤ N →
      sowStones N (N + 1 + t) k (a, o) = (a, addRun o t k) := by
  intro k
  induction k with
  | zero => intro t a o _; rfl
  | succ k ih =>
    intro t a o h
    have hslot : slotOfPos N (N + 1 + t) = Slot.oppPit t := by
      simp only [slotOfPos, if_neg (by omega : ¬(N + 1 + t < N)), if_neg (by omega : ¬(N + 1 + t = N))]
      congr 1
      omega
    simp only [sowStones, placeStone, hslot, addRun_succ]
    rcases Nat.eq_zero_or_pos k with hk0 | hk1
    · subst hk0; rfl
    · have hpos : (N + 1 + t + 1) % (2 * N + 1) = N + 1 + (t + 1) := by
        rw [Nat.mod_eq_of_lt (by omega)]
        omega
      rw [hpos]
      exact ih (t + 1) a (o.addStoneToPit t) (by omega)

/-- Sowing `m+1` stones from position `cur` with `cur + m = N` runs through the
remaining own pits and drops the last stone in the mover's bank. -/
lemma sow_own_then_bank (N : Nat) :
    ∀ (m cur : Nat) (a o : SinglePlayerBoardState), cur + m = N →
      sowStones N cur (m + 1) (a, o) = ((addRun a cur m).addStonesToBank 1, o) := by
  intro m
  induction m with
  | zero =>
    intro cur a o h
    have hcur : cur = N := by omega
    have hslot : slotOfPos N cur = Slot.ownBank := by simp [slotOfPos, hcur]
    simp [sowStones, placeStone, hslot, addRun]
  | succ m ih =>
    intro cur a o h
    have hcur : cur < N := by omega
    have hslot : slotOfPos N cur = Slot.ownPit cur := by simp [slotOfPos, hcur]
    have hpos : (cur + 1) % (2 * N + 1) = cur + 1 := Nat.mod_eq_of_lt (by omega)
    simp only [sowStones, placeStone, hslot, hpos, addRun_succ]
    exact ih (cur + 1) (a.addStoneToPit cur) o (by omega)

/-- Splitting a sowing walk: sow `j` stones, then the remaining `m` from the
advanced position. -/
lemma sow_append (N : Nat) :
    ∀ (j m p : Nat) (st : SinglePlayerBoardState × SinglePlayerBoardState), p < 2 * N + 1 →
      sowStones N p (j + m) st =
        sowStones N ((p + j) % (2 * N + 1)) m (sowStones N p j st) := by
  intro j
  induction j with
  | zero =>
    intro m p st hp
    simp [sowStones, Nat.mod_eq_of_lt hp]
  | succ j ih =>
    intro m p st hp
    have hstep : j + 1 + m = (j + m) + 1 := by omega
    rw [hstep]
    simp only [sowStones]
    rw [ih m ((p + 1) % (2 * N + 1)) (placeStone N p st) (Nat.mod_lt _ (by omega))]
    rw [Nat.mod_add_mod]
    have : p + 1 + j = p + (j + 1) := by omega
    rw [this]

/-- One full cycle of `2N+1` stones starting at the opponent's first pit:
every opponent pit, every own pit, and the own bank each receive one stone. -/
lemma sow_full_cycle (N : Nat) (hN : 1 ≤ N) (a o : SinglePlayerBoardState) :
    sowStones N (N + 1) (2 * N + 1) (a, o) =
      ((addRun a 0 N).addStonesToBank 1, addRun o 0 N) := by
  rw [show 2 * N + 1 = N + (N + 1) from by omega,
    sow_append N N (N + 1) (N + 1) (a, o) (by omega)]
  have hin : sowStones N (N + 1) N (a, o) = (a, addRun o 0 N) := by
    simpa using sow_opp_seg N N 0 a o (by omega)
  rw [hin, show N + 1 + N = 2 * N + 1 from by omega, Nat.mod_self]
  exact sow_own_then_bank N N 0 a (addRun o 0 N) (by omega)

/-- Spec outcome when the stones run out inside the opponent's pits. -/
lemma specSowResult_oppEnd (N k : Nat) (hN : 1 ≤ N) (hk : 1 ≤ k) (hkN : k ≤ N)
    (a o : SinglePlayerBoardState) :
    specSowResult N (N + 1) k a o = (TurnResult.makeNotEndedInBankResult, a, addRun o 0 k) := by
  have hsow : sowStones N (N + 1) k (a, o) = (a, addRun o 0 k) := by
    simpa using sow_opp_seg N k 0 a o (by omega)
  have hlast : lastSlot N (N + 1) k = Slot.oppPit (k - 1) := by
    unfold lastSlot
    rw [Nat.mod_eq_of_lt (by omega : N + 1 + (k - 1) < 2 * N + 1)]
    simp only [slotOfPos, if_neg (by omega : ¬(N + 1 + (k - 1) < N)),
      if_neg (by omega : ¬(N + 1 + (k - 1) = N))]
    congr 1
    omega
  simp [specSowResult, hsow, hlast]

/-- Spec outcome when the stones wrap past the opponent's pits and run out in
one of the mover's own pits: the capture check runs there. -/
lemma specSowResult_wrapPit (N k₁ : Nat) (hN : 1 ≤ N) (hk : 1 ≤ k₁) (hkN : k₁ ≤ N)
    (a o : SinglePlayerBoardState) :
    specSowResult N (N + 1) (N + k₁) a o =
      (TurnResult.makeNotEndedInBankResult,
       (TurnExecutor.captureCheckFn (addRun a 0 k₁) (addRun o 0 N) (k₁ - 1)).1,
       (TurnExecutor.captureCheckFn (addRun a 0 k₁) (addRun o 0 N) (k₁ - 1)).2) := by
  have hsow : sowStones N (N + 1) (N + k₁) (a, o) = (addRun a 0 k₁, addRun o 0 N) := by
    rw [sow_append N N k₁ (N + 1) (a, o) (by omega)]
    have hin : sowStones N (N + 1) N (a, o) = (a, addRun o 0 N) := by
      simpa using sow_opp_seg N N 0 a o (by omega)
    rw [hin, show N + 1 + N = 2 * N + 1 from by omega, Nat.mod_self]
    exact sow_own_seg N k₁ 0 a (addRun o 0 N) (by omega)
  have hlast : lastSlot N (N + 1) (N + k₁) = Slot.ownPit (k₁ - 1) := by
    unfold lastSlot
    rw [show N + 1 + (N + k₁ - 1) = (k₁ - 1) + (2 * N + 1) from by omega, Nat.add_mod_right,
      Nat.mod_eq_of_lt (by omega)]
    simp [slotOfPos, (by omega : k₁ - 1 < N)]
  simp [specSowResult, hsow, hlast]

/-- Spec outcome when the stones wrap around and the last one lands exactly in
the mover's bank. -/
lemma specSowResult_wrapBank (N : Nat) (hN : 1 ≤ N) (a o : SinglePlayerBoardState) :
    specSowResult N (N + 1) (2 * N + 1) a o =
      (TurnResult.makeEndedInBankResult, (addRun a 0 N).addStonesToBank 1, addRun o 0 N) := by
  have hsow := sow_full_cycle N hN a o
  have hlast : lastSlot N (N + 1) (2 * N + 1) = Slot.ownBank := by
    unfold lastSlot
    rw [show N + 1 + (2 * N + 1 - 1) = N + (2 * N + 1) from by omega, Nat.add_mod_right,
      Nat.mod_eq_of_lt (by omega)]
    simp [slotOfPos]
  simp [specSowResult, hsow, hlast]

/-- Peeling one full cycle off the front of a long wrap-around sow. -/
lemma specSowResult_cycle (N k₂ : Nat) (hN : 1 ≤ N) (hk : 1 ≤ k₂)
    (a o : SinglePlayerBoardState) :
    specSowResult N (N + 1) (2 * N + 1 + k₂) a o =
      specSowResult N (N + 1) k₂ ((addRun a 0 N).addStonesToBank 1) (addRun o 0 N) := by
  have hsow : sowStones N (N + 1) (2 * N + 1 + k₂) (a, o) =
      sowStones N (N + 1) k₂ ((addRun a 0 N).addStonesToBank 1, addRun o 0 N) := by
    rw [sow_append N (2 * N + 1) k₂ (N + 1) (a, o) (by omega), sow_full_cycle N hN a o,
      Nat.add_mod_right, Nat.mod_eq_of_lt (by omega)]
  have hlast : lastSlot N (N + 1) (2 * N + 1 + k₂) = lastSlot N (N + 1) k₂ := by
    unfold lastSlot
    rw [show N + 1 + (2 * N + 1 + k₂ - 1) = (N + 1 + (k₂ - 1)) + (2 * N + 1) from by omega,
      Nat.add_mod_right]
  simp only [specSowResult, hsow, hlast]

/-- Refinement of the `while` loop of `playTurn`: with both sides holding `N`
pits and fuel at least the stone count, the alternating drop phases compute
exactly the spec-side sow starting at the opponent's first pit
(cycle position `N+1`), and always return a result. -/
lemma sowLoop_spec (N : Nat) (hN : 1 ≤ N) :
    ∀ (fuel k : Nat) (a o : SinglePlayerBoardState), a.getNumPits = N → o.getNumPits = N →
      1 ≤ k → k ≤ fuel →
      TurnExecutor.sowLoop fuel a o k = some (specSowResult N (N + 1) k a o) := by
  intro fuel
  induction fuel with
  | zero => intro k a o _ _ hk hf; omega
  | succ fuel ih =>
    intro k a o ha ho hk hf
    obtain ⟨k', rfl⟩ : ∃ k', k = k' + 1 := ⟨k - 1, by omega⟩
    simp only [TurnExecutor.sowLoop]
    have hopp := dropOpposing_spec N (k' + 1) 0 o ho (by omega) (by omega)
    by_cases hkN : k' + 1 ≤ N
    · rw [hopp.1 (by omega)]
      rw [specSowResult_oppEnd N (k' + 1) hN (by omega) hkN a o]
    · rw [hopp.2 (by omega)]
      simp only [Nat.sub_zero]
      have hk₁ : 1 ≤ k' + 1 - N := by omega
      have hact := dropActive_spec N (k' + 1 - N) 0 a (addRun o 0 N) ha (by omega) hk₁
      by_cases hb1 : k' + 1 - N ≤ N
      · rw [hact.1 (by omega)]
        have hsplit : k' + 1 = N + (k' + 1 - N) := by omega
        rw [hsplit, specSowResult_wrapPit N (k' + 1 - N) hN hk₁ hb1 a o]
        simp
      · by_cases hb2 : k' + 1 - N = N + 1
        · rw [hact.2.1 (by omega)]
          have hsplit : k' + 1 = 2 * N + 1 := by omega
          rw [hsplit, specSowResult_wrapBank N hN a o]
          simp
        · have hgt : N + 1 < k' + 1 - N + 0 := by omega
          rw [hact.2.2 hgt]
          have hk₂ : 1 ≤ k' + 1 - N - N - 1 := by omega
          have hspec : specSowResult N (N + 1) (k' + 1) a o =
              specSowResult N (N + 1) (k' + 1 - N - N - 1)
                ((addRun a 0 N).addStonesToBank 1) (addRun o 0 N) := by
            conv_lhs => rw [show k' + 1 = 2 * N + 1 + (k' + 1 - N - N - 1) from by omega]
            exact specSowResult_cycle N (k' + 1 - N - N - 1) hN hk₂ a o
          rw [hspec, show k' + 1 - N - (N - 0) - 1 = k' + 1 - N - N - 1 from by omega]
          exact ih (k' + 1 - N - N - 1) ((addRun a 0 N).addStonesToBank 1) (addRun o 0 N)
            (by simp [ha]) (by simp [ho]) hk₂ (by omega)

/-- Spec outcome when the stones run out inside the mover's own pits without
reaching the bank: capture check at the landing pit. -/
lemma specSowResult_ownEnd (N pit k : Nat) (hpitN : pit < N) (hk : 1 ≤ k)
    (hkN : k + (pit + 1) ≤ N) (a o : SinglePlayerBoardState) :
    specSowResult N (pit + 1) k a o =
      (TurnResult.makeNotEndedInBankResult,
       (TurnExecutor.captureCheckFn (addRun a (pit + 1) k) o (pit + 1 + k - 1)).1,
       (TurnExecutor.captureCheckFn (addRun a (pit + 1) k) o (pit + 1 + k - 1)).2) := by
  have hsow := sow_own_seg N k (pit + 1) a o (by omega)
  have hlast : lastSlot N (pit + 1) k = Slot.ownPit (pit + 1 + k - 1) := by
    unfold lastSlot
    rw [show pit + 1 + (k - 1) = pit + 1 + k - 1 from by omega, Nat.mod_eq_of_lt (by omega)]
    unfold slotOfPos
    rw [if_pos (by omega : pit + 1 + k - 1 < N)]
  simp [specSowResult, hsow, hlast]

/-- Spec outcome when the stones run out exactly at the mover's bank. -/
lemma specSowResult_ownBank (N pit : Nat) (hpitN : pit < N) (a o : SinglePlayerBoardState) :
    specSowResult N (pit + 1) (N - pit) a o =
      (TurnResult.makeEndedInBankResult,
       (addRun a (pit + 1) (N - (pit + 1))).addStonesToBank 1, o) := by
  have hsow : sowStones N (pit + 1) (N - pit) (a, o) =
      ((addRun a (pit + 1) (N - (pit + 1))).addStonesToBank 1, o) := by
    have h := sow_own_then_bank N (N - (pit + 1)) (pit + 1) a o (by omega)
    rw [show N - (pit + 1) + 1 = N - pit from by omega] at h
    exact h
  have hlast : lastSlot N (pit + 1) (N - pit) = Slot.ownBank := by
    unfold lastSlot
    rw [show pit + 1 + (N - pit - 1) = N from by omega, Nat.mod_eq_of_lt (by omega)]
    simp [slotOfPos]
  simp [specSowResult, hsow, hlast]

/-- Spec outcome when the stones overflow past the mover's bank: the walk
continues at the opponent's first pit with the leftover stones. -/
lemma specSowResult_ownOverflow (N pit k : Nat) (hpitN : pit < N)
    (hover : N + 1 < k + (pit + 1)) (a o : SinglePlayerBoardState) :
    specSowResult N (pit + 1) k a o =
      specSowResult N (N + 1) (k - (N - pit))
        ((addRun a (pit + 1) (N - (pit + 1))).addStonesToBank 1) o := by
  have hk' : 1 ≤ k - (N - pit) := by omega
  have hposN : (pit + 1 + (N - pit)) % (2 * N + 1) = N + 1 := by
    rw [show pit + 1 + (N - pit) = N + 1 from by omega]
    exact Nat.mod_eq_of_lt (by omega)
  have hin : sowStones N (pit + 1) (N - pit) (a, o) =
      ((addRun a (pit + 1) (N - (pit + 1))).addStonesToBank 1, o) := by
    have h := sow_own_then_bank N (N - (pit + 1)) (pit + 1) a o (by omega)
    rw [show N - (pit + 1) + 1 = N - pit from by omega] at h
    exact h
  have hsow : sowStones N (pit + 1) k (a, o) =
      sowStones N (N + 1) (k - (N - pit))
        ((addRun a (pit + 1) (N - (pit + 1))).addStonesToBank 1, o) := by
    conv_lhs => rw [show k = (N - pit) + (k - (N - pit)) from by omega]
    rw [sow_append N (N - pit) (k - (N - pit)) (pit + 1) (a, o) (by omega), hposN, hin]
  have hlast : lastSlot N (pit + 1) k = lastSlot N (N + 1) (k - (N - pit)) := by
    unfold lastSlot
    rw [show pit + 1 + (k - 1) = N + 1 + (k - (N - pit) - 1) from by omega]
  simp only [specSowResult, hsow, hlast]

/-- Master refinement for valid turns: `TurnExecutor::playTurn` on a valid
move computes exactly the spec-side counterclockwise sow of all the source
pit's stones starting at the next pit, with the bank-landing and capture
resolution of the spec. -/
lemma playTurn_valid_spec (player_index pit_index : Nat) (bs : BoardState)
    (hp : player_index = 0 ∨ player_index = 1)
    (hpit : pit_index < bs.getNumPits)
    (hlen : bs.player1.getNumPits = bs.player0.getNumPits)
    (hk : 0 < (bs.activeSide player_index).getNumStonesInPit pit_index) :
    TurnExecutor.playTurn player_index pit_index bs =
      some
        ((specSowResult bs.getNumPits (pit_index + 1)
            ((bs.activeSide player_index).getNumStonesInPit pit_index).toNat
            ((bs.activeSide player_index).clearStonesFromPit pit_index)
            (bs.opposingSide player_index)).1,
          BoardState.reassemble player_index
            (specSowResult bs.getNumPits (pit_index + 1)
              ((bs.activeSide player_index).getNumStonesInPit pit_index).toNat
              ((bs.activeSide player_index).clearStonesFromPit pit_index)
              (bs.opposingSide player_index)).2.1
            (specSowResult bs.getNumPits (pit_index + 1)
              ((bs.activeSide player_index).getNumStonesInPit pit_index).toNat
              ((bs.activeSide player_index).clearStonesFromPit pit_index)
              (bs.opposingSide player_index)).2.2) := by
  have hNpos : 1 ≤ bs.getNumPits := by omega
  have haN : (bs.activeSide player_index).getNumPits = bs.getNumPits := by
    rcases hp with h | h <;> subst h <;>
      simp [BoardState.activeSide, BoardState.getNumPits, hlen]
  have hoN : (bs.opposingSide player_index).getNumPits = bs.getNumPits := by
    rcases hp with h | h <;> subst h <;>
      simp [BoardState.opposingSide, BoardState.getNumPits, hlen]
  have hk1 : 1 ≤ ((bs.activeSide player_index).getNumStonesInPit pit_index).toNat := by omega
  have hcond1 : ¬(player_index ≠ 0 ∧ player_index ≠ 1) := by
    rcases hp with h | h <;> simp [h]
  have hcond2 : ¬(bs.getNumPits ≤ pit_index) := by omega
  have hcond3 : ¬((bs.activeSide player_index).getNumStonesInPit pit_index ≤ 0) := by omega
  simp only [TurnExecutor.playTurn, if_neg hcond1, if_neg hcond2, if_neg hcond3]
  have hact := dropActive_spec bs.getNumPits
    ((bs.activeSide player_index).getNumStonesInPit pit_index).toNat (pit_index + 1)
    ((bs.activeSide player_index).clearStonesFromPit pit_index)
    (bs.opposingSide player_index) (by simp [haN]) (by omega) hk1
  by_cases h1 : ((bs.activeSide player_index).getNumStonesInPit pit_index).toNat +
      (pit_index + 1) ≤ bs.getNumPits
  · rw [hact.1 h1,
      specSowResult_ownEnd bs.getNumPits pit_index
        ((bs.activeSide player_index).getNumStonesInPit pit_index).toNat
        (by omega) hk1 h1
        ((bs.activeSide player_index).clearStonesFromPit pit_index)
        (bs.opposingSide player_index)]
  · by_cases h2 : ((bs.activeSide player_index).getNumStonesInPit pit_index).toNat +
        (pit_index + 1) = bs.getNumPits + 1
    · rw [hact.2.1 h2,
        show ((bs.activeSide player_index).getNumStonesInPit pit_index).toNat =
          bs.getNumPits - pit_index from by omega,
        specSowResult_ownBank bs.getNumPits pit_index (by omega)
          ((bs.activeSide player_index).clearStonesFromPit pit_index)
          (bs.opposingSide player_index)]
    · have h3 : bs.getNumPits + 1 <
          ((bs.activeSide player_index).getNumStonesInPit pit_index).toNat + (pit_index + 1) := by
        omega
      rw [hact.2.2 h3]
      have hk₃ : 1 ≤ ((bs.activeSide player_index).getNumStonesInPit pit_index).toNat -
          (bs.getNumPits - (pit_index + 1)) - 1 := by omega
      have hsl := sowLoop_spec bs.getNumPits hNpos
        (((bs.activeSide player_index).getNumStonesInPit pit_index).toNat -
          (bs.getNumPits - (pit_index + 1)) - 1)
        (((bs.activeSide player_index).getNumStonesInPit pit_index).toNat -
          (bs.getNumPits - (pit_index + 1)) - 1)
        ((addRun ((bs.activeSide player_index).clearStonesFromPit pit_index) (pit_index + 1)
            (bs.getNumPits - (pit_index + 1))).addStonesToBank 1)
        (bs.opposingSide player_index)
        (by simp [haN]) (by simp [hoN]) hk₃ le_rfl
      rw [specSowResult_ownOverflow bs.getNumPits pit_index
          ((bs.activeSide player_index).getNumStonesInPit pit_index).toNat (by omega) h3
          ((bs.activeSide player_index).clearStonesFromPit pit_index)
          (bs.opposingSide player_index),
        show ((bs.activeSide player_index).getNumStonesInPit pit_index).toNat -
            (bs.getNumPits - pit_index) =
          ((bs.activeSide player_index).getNumStonesInPit pit_index).toNat -
            (bs.getNumPits - (pit_index + 1)) - 1 from by omega]
      simp only [hsl]

/-- If the active-side drop phase hands stones back (`none`), it consumed at
least one stone and at least one remains. -/
lemma dropActive_none_bound :
    ∀ (k cur : Nat) (a o : SinglePlayerBoardState),
      (TurnExecutor.dropStonesOnActivePlayerBoard a o cur k).1 = none →
      1 ≤ (TurnExecutor.dropStonesOnActivePlayerBoard a o cur k).2.2.2 ∧
      (TurnExecutor.dropStonesOnActivePlayerBoard a o cur k).2.2.2 < k := by
  intro k
  induction k with
  | zero => intro cur a o hnone; simp [TurnExecutor.dropStonesOnActivePlayerBoard] at hnone
  | succ k ih =>
    intro cur a o hnone
    by_cases hc : cur = a.getNumPits
    · rcases Nat.eq_zero_or_pos k with hk0 | hk1
      · subst hk0
        simp [TurnExecutor.dropStonesOnActivePlayerBoard, hc] at hnone
      · simp only [TurnExecutor.dropStonesOnActivePlayerBoard, if_pos hc,
          if_neg (by omega : ¬k = 0)]
        omega
    · simp only [TurnExecutor.dropStonesOnActivePlayerBoard, if_neg hc] at hnone ⊢
      have := ih (cur + 1) (a.addStoneToPit cur) o hnone
      omega

/-- If the opposing-side drop phase hands stones back (`none`), at least one
stone remains and no stones were created. -/
lemma dropOpposing_none_bound :
    ∀ (k cur : Nat) (o : SinglePlayerBoardState),
      (TurnExecutor.dropStonesOnOpposingPlayerBoard o cur k).1 = none →
      1 ≤ (TurnExecutor.dropStonesOnOpposingPlayerBoard o cur k).2.2 ∧
      (TurnExecutor.dropStonesOnOpposingPlayerBoard o cur k).2.2 ≤ k := by
  intro k
  induction k with
  | zero => intro cur o hnone; simp [TurnExecutor.dropStonesOnOpposingPlayerBoard] at hnone
  | succ k ih =>
    intro cur o hnone
    by_cases hc : cur = o.getNumPits
    · simp only [TurnExecutor.dropStonesOnOpposingPlayerBoard, if_pos hc]
      omega
    · simp only [TurnExecutor.dropStonesOnOpposingPlayerBoard, if_neg hc] at hnone ⊢
      have := ih (cur + 1) (o.addStoneToPit cur) hnone
      omega

/-- Totality of the sowing `while` loop: with fuel at least the stone count,
the loop always reports a turn result — the `std::logic_error` exit is
unreachable (for boards of any shape). -/
lemma sowLoop_isSome :
    ∀ (fuel k : Nat) (a o : SinglePlayerBoardState), 1 ≤ k → k ≤ fuel →
      (TurnExecutor.sowLoop fuel a o k).isSome = true := by
  intro fuel
  induction fuel with
  | zero => intro k a o hk hf; omega
  | succ fuel ih =>
    intro k a o hk hf
    obtain ⟨k', rfl⟩ : ∃ k', k = k' + 1 := ⟨k - 1, by omega⟩
    simp only [TurnExecutor.sowLoop]
    rcases hopp : TurnExecutor.dropStonesOnOpposingPlayerBoard o 0 (k' + 1) with ⟨r₁, o', n'⟩
    rcases r₁ with _ | r₁
    · have hb := dropOpposing_none_bound (k' + 1) 0 o (by rw [hopp])
      rw [hopp] at hb
      simp only at hb
      rcases hact : TurnExecutor.dropStonesOnActivePlayerBoard a o' 0 n' with ⟨r₂, a'', o'', n''⟩
      rcases r₂ with _ | r₂
      · have hb2 := dropActive_none_bound n' 0 a o' (by rw [hact])
        rw [hact] at hb2
        simp only at hb2
        have hgoal := ih n'' a'' o'' (by omega) (by omega)
        simpa [hact] using hgoal
      · simp [hact]
    · simp

/-- C7 core: `TurnExecutor::playTurn` always returns a `TurnResult` — the
internal-consistency `std::logic_error` is unreachable for every input. -/
lemma playTurn_isSome (player_index pit_index : Nat) (bs : BoardState) :
    (TurnExecutor.playTurn player_index pit_index bs).isSome = true := by
  unfold TurnExecutor.playTurn
  by_cases h1 : player_index ≠ 0 ∧ player_index ≠ 1
  · simp [h1]
  · rw [if_neg h1]
    by_cases h2 : bs.getNumPits ≤ pit_index
    · simp [h2]
    · rw [if_neg h2]
      by_cases h3 : (bs.activeSide player_index).getNumStonesInPit pit_index ≤ 0
      · simp [h3]
      · rw [if_neg h3]
        have hk1 : 1 ≤ ((bs.activeSide player_index).getNumStonesInPit pit_index).toNat := by
          omega
        rcases hda : TurnExecutor.dropStonesOnActivePlayerBoard
            ((bs.activeSide player_index).clearStonesFromPit pit_index)
            (bs.opposingSide player_index) (pit_index + 1)
            ((bs.activeSide player_index).getNumStonesInPit pit_index).toNat with ⟨r₁, a', o', n'⟩
        rcases r₁ with _ | r₁
        · have hb := dropActive_none_bound _ _ _ _ (by rw [hda])
          rw [hda] at hb
          simp only at hb
          have hsl := sowLoop_isSome n' n' a' o' (by omega) le_rfl
          rcases hslv : TurnExecutor.sowLoop n' a' o' n' with _ | ⟨r₂, a'', o''⟩
          · rw [hslv] at hsl; simp at hsl
          · simp [hslv]
        · simp

/-- `GameMechanicsExecutor` state: the active player index (its only
persistent state). -/
structure GameMechanicsExecutor where
  active_player_index : Nat
deriving DecidableEq, Repr

namespace GameMechanicsExecutor

/-- `GameMechanicsExecutor::playTurn`: delegates to the turn executor for the
active player; on a valid turn that did not end in the bank the active player
toggles.  Returns the C++ `bool` with the updated executor and board; `none`
propagates the modelled `std::logic_error`. -/
def playTurn (gme : GameMechanicsExecutor) (pit_index : Nat) (board_state : BoardState) :
    Option (Bool × GameMechanicsExecutor × BoardState) :=
  match TurnExecutor.playTurn gme.active_player_index pit_index board_state with
  | none => none
  | some (result, board_state') =>
    if result.valid = false then some (false, gme, board_state')
    else if result.ended_in_bank = false then
      some (true, ⟨(gme.active_player_index + 1) % 2⟩, board_state')
    else some (true, gme, board_state')

/-- The pit scan of `isSinglePlayerBoardFinished` from index `i`, with `count`
pits left to inspect (the C++ `for` loop with its early `break`). -/
def pitsAreClearFrom (s : SinglePlayerBoardState) (i : Nat) : Nat → Bool
  | 0 => true
  | count + 1 =>
    if s.getNumStonesInPit i ≠ 0 then false else pitsAreClearFrom s (i + 1) count

/-- `GameMechanicsExecutor::isSinglePlayerBoardFinished`: all pits clear. -/
def isSinglePlayerBoardFinished (s : SinglePlayerBoardState) : Bool :=
  pitsAreClearFrom s 0 s.getNumPits

/-- `GameMechanicsExecutor::isGameFinished`: either side's pits all empty. -/
def isGameFinished (board_state : BoardState) : Bool :=
  if isSinglePlayerBoardFinished board_state.player0 then true
  else if isSinglePlayerBoardFinished board_state.player1 then true
  else false

/-- The pit-clearing loop of `getWinnerPlayerIndex`, from index `i` for
`count` iterations (`count = getNumPits` at the call site). -/
def clearPitsFrom (s : SinglePlayerBoardState) (i : Nat) : Nat → SinglePlayerBoardState
  | 0 => s
  | count + 1 => clearPitsFrom (s.clearStonesFromPit i) (i + 1) count

/-- The end-of-game sweep of one side in `getWinnerPlayerIndex`: add the pit
sum to the bank, then clear every pit. -/
def sweepSide (s : SinglePlayerBoardState) : SinglePlayerBoardState :=
  let s' := s.addStonesToBank s.sumOfStonesInPits
  clearPitsFrom s' 0 s'.getNumPits

/-- `GameMechanicsExecutor::getWinnerPlayerIndex`: `none` when the game is not
finished (board untouched); otherwise sweeps both sides and compares banks,
with `2` the tie sentinel.  The board mutation is returned alongside. -/
def getWinnerPlayerIndex (board_state : BoardState) : Option Nat × BoardState :=
  if isGameFinished board_state = false then (none, board_state)
  else
    let p0 := sweepSide board_state.player0
    let p1 := sweepSide board_state.player1
    if p1.getNumStonesInBank < p0.getNumStonesInBank then (some 0, ⟨p0, p1⟩)
    else if p0.getNumStonesInBank < p1.getNumStonesInBank then (some 1, ⟨p0, p1⟩)
    else (some 2, ⟨p0, p1⟩)

end GameMechanicsExecutor

/-- Total stone count of a position: all pits of both sides plus both banks
(the conserved quantity of the spec). -/
def BoardState.totalStones (bs : BoardState) : Int :=
  bs.player0.sumOfStonesInPits + bs.player0.getNumStonesInBank +
    bs.player1.sumOfStonesInPits + bs.player1.getNumStonesInBank

/-- Shifting the accumulator out of an integer `foldl` sum. -/
lemma foldl_add_init (l : List Int) : ∀ (a : Int), l.foldl (· + ·) a = a + l.foldl (· + ·) 0 := by
  induction l with
  | nil => intro a; simp
  | cons x xs ih =>
    intro a
    simp only [List.foldl]
    rw [ih (a + x), ih (0 + x)]
    ring

/-- Effect of an in-range `set` on the pit sum. -/
lemma foldl_add_set (l : List Int) : ∀ (i : Nat) (v : Int), i < l.length →
    (l.set i v).foldl (· + ·) 0 = l.foldl (· + ·) 0 - l.getD i 0 + v := by
  induction l with
  | nil => intro i v h; simp at h
  | cons x xs ih =>
    intro i v h
    cases i with
    | zero =>
      simp only [List.set, List.foldl, List.getD_cons_zero]
      rw [foldl_add_init xs (0 + v), foldl_add_init xs (0 + x)]
      ring
    | succ i =>
      simp only [List.set, List.foldl, List.getD_cons_succ]
      rw [foldl_add_init (xs.set i v) (0 + x), foldl_add_init xs (0 + x),
        ih i v (by simpa using h)]
      ring

namespace SinglePlayerBoardState

/-- Adding a stone to an in-range pit raises the pit sum by one. -/
lemma sum_addStoneToPit (s : SinglePlayerBoardState) (i : Nat) (h : i < s.getNumPits) :
    (s.addStoneToPit i).sumOfStonesInPits = s.sumOfStonesInPits + 1 := by
  unfold addStoneToPit sumOfStonesInPits
  simp only
  rw [foldl_add_set s.pits i _ h]
  ring

/-- Clearing a pit lowers the pit sum by exactly its contents (an out-of-range
index reads as zero and clears nothing). -/
lemma sum_clearStonesFromPit (s : SinglePlayerBoardState) (i : Nat) :
    (s.clearStonesFromPit i).sumOfStonesInPits =
      s.sumOfStonesInPits - s.getNumStonesInPit i := by
  unfold clearStonesFromPit sumOfStonesInPits getNumStonesInPit
  simp only
  by_cases h : i < s.pits.length
  · rw [foldl_add_set s.pits i 0 h]; ring
  · rw [List.set_eq_of_length_le (by omega), List.getD_eq_default _ _ (by omega)]
    ring

end SinglePlayerBoardState

/-- Stone conservation through the capture check: the captured stones all move
to the mover's bank. -/
lemma captureCheckFn_total (a o : SinglePlayerBoardState) (f : Nat) :
    (TurnExecutor.captureCheckFn a o f).1.sumOfStonesInPits +
      (TurnExecutor.captureCheckFn a o f).1.bank +
      (TurnExecutor.captureCheckFn a o f).2.sumOfStonesInPits +
      (TurnExecutor.captureCheckFn a o f).2.bank =
    a.sumOfStonesInPits + a.bank + o.sumOfStonesInPits + o.bank := by
  unfold TurnExecutor.captureCheckFn
  by_cases hcond : a.getNumStonesInPit f = 1 ∧
      0 < o.getNumStonesInPit (o.getNumPits - f - 1)
  · simp only [if_pos hcond, SinglePlayerBoardState.sum_clearStonesFromPit,
      SinglePlayerBoardState.bank_clearStonesFromPit,
      SinglePlayerBoardState.bank_addStonesToBank,
      SinglePlayerBoardState.sum_addStonesToBank,
      SinglePlayerBoardState.getNumStonesInPit_addStonesToBank]
    rw [hcond.1]
    ring
  · simp [if_neg hcond]

/-- Stone conservation through `dropStonesOnActivePlayerBoard`: the total of
both sides plus the stones still in hand is invariant. -/
lemma dropActive_total :
    ∀ (k cur : Nat) (a o : SinglePlayerBoardState), cur ≤ a.getNumPits →
      (TurnExecutor.dropStonesOnActivePlayerBoard a o cur k).2.1.sumOfStonesInPits +
      (TurnExecutor.dropStonesOnActivePlayerBoard a o cur k).2.1.bank +
      (TurnExecutor.dropStonesOnActivePlayerBoard a o cur k).2.2.1.sumOfStonesInPits +
      (TurnExecutor.dropStonesOnActivePlayerBoard a o cur k).2.2.1.bank +
      ((TurnExecutor.dropStonesOnActivePlayerBoard a o cur k).2.2.2 : Int) =
      a.sumOfStonesInPits + a.bank + o.sumOfStonesInPits + o.bank + (k : Int) := by
  intro k
  induction k with
  | zero =>
    intro cur a o _
    simp only [TurnExecutor.dropStonesOnActivePlayerBoard]
    have := captureCheckFn_total a o (cur - 1)
    push_cast
    linarith
  | succ k ih =>
    intro cur a o hcur
    by_cases hc : cur = a.getNumPits
    · rcases Nat.eq_zero_or_pos k with hk0 | hk1
      · subst hk0
        simp only [TurnExecutor.dropStonesOnActivePlayerBoard, if_pos hc, if_pos rfl]
        simp [SinglePlayerBoardState.addStonesToBank, SinglePlayerBoardState.sumOfStonesInPits]
        ring
      · simp only [TurnExecutor.dropStonesOnActivePlayerBoard, if_pos hc,
          if_neg (by omega : ¬k = 0)]
        simp [SinglePlayerBoardState.addStonesToBank, SinglePlayerBoardState.sumOfStonesInPits]
        push_cast
        ring
    · have hlt : cur < a.getNumPits := by omega
      simp only [TurnExecutor.dropStonesOnActivePlayerBoard, if_neg hc]
      have := ih (cur + 1) (a.addStoneToPit cur) o (by simp; omega)
      rw [SinglePlayerBoardState.sum_addStoneToPit a cur hlt] at this
      simp only [SinglePlayerBoardState.bank_addStoneToPit] at this
      push_cast at this ⊢
      linarith

/-- Stone conservation through `dropStonesOnOpposingPlayerBoard`. -/
lemma dropOpposing_total :
    ∀ (k cur : Nat) (o : SinglePlayerBoardState), cur ≤ o.getNumPits →
      (TurnExecutor.dropStonesOnOpposingPlayerBoard o cur k).2.1.sumOfStonesInPits +
      (TurnExecutor.dropStonesOnOpposingPlayerBoard o cur k).2.1.bank +
      ((TurnExecutor.dropStonesOnOpposingPlayerBoard o cur k).2.2 : Int) =
      o.sumOfStonesInPits + o.bank + (k : Int) := by
  intro k
  induction k with
  | zero =>
    intro cur o _
    simp [TurnExecutor.dropStonesOnOpposingPlayerBoard]
  | succ k ih =>
    intro cur o hcur
    by_cases hc : cur = o.getNumPits
    · simp [TurnExecutor.dropStonesOnOpposingPlayerBoard, if_pos hc]
    · have hlt : cur < o.getNumPits := by omega
      simp only [TurnExecutor.dropStonesOnOpposingPlayerBoard, if_neg hc]
      have := ih (cur + 1) (o.addStoneToPit cur) (by simp; omega)
      rw [SinglePlayerBoardState.sum_addStoneToPit o cur hlt] at this
      simp only [SinglePlayerBoardState.bank_addStoneToPit] at this
      push_cast at this ⊢
      linarith

/-- When the active-side drop phase reports a turn result, no stones remain. -/
lemma dropActive_some_zero :
    ∀ (k cur : Nat) (a o : SinglePlayerBoardState) (r : TurnResult),
      (TurnExecutor.dropStonesOnActivePlayerBoard a o cur k).1 = some r →
      (TurnExecutor.dropStonesOnActivePlayerBoard a o cur k).2.2.2 = 0 := by
  intro k
  induction k with
  | zero => intro cur a o r _; rfl
  | succ k ih =>
    intro cur a o r h
    by_cases hc : cur = a.getNumPits
    · rcases Nat.eq_zero_or_pos k with hk0 | hk1
      · subst hk0; simp [TurnExecutor.dropStonesOnActivePlayerBoard, hc]
      · simp only [TurnExecutor.dropStonesOnActivePlayerBoard, if_pos hc,
          if_neg (by omega : ¬k = 0)] at h
        simp at h
    · simp only [TurnExecutor.dropStonesOnActivePlayerBoard, if_neg hc] at h ⊢
      exact ih (cur + 1) (a.addStoneToPit cur) o r h

/-- When the opposing-side drop phase reports a turn result, no stones remain. -/
lemma dropOpposing_some_zero :
    ∀ (k cur : Nat) (o : SinglePlayerBoardState) (r : TurnResult),
      (TurnExecutor.dropStonesOnOpposingPlayerBoard o cur k).1 = some r →
      (TurnExecutor.dropStonesOnOpposingPlayerBoard o cur k).2.2 = 0 := by
  intro k
  induction k with
  | zero => intro cur o r _; rfl
  | succ k ih =>
    intro cur o r h
    by_cases hc : cur = o.getNumPits
    · simp [TurnExecutor.dropStonesOnOpposingPlayerBoard, hc] at h
    · simp only [TurnExecutor.dropStonesOnOpposingPlayerBoard, if_neg hc] at h ⊢
      exact ih (cur + 1) (o.addStoneToPit cur) r h

/-- Stone conservation through the sowing `while` loop. -/
lemma sowLoop_total :
    ∀ (fuel k : Nat) (a o a' o' : SinglePlayerBoardState) (r : TurnResult),
      TurnExecutor.sowLoop fuel a o k = some (r, a', o') →
      a'.sumOfStonesInPits + a'.bank + o'.sumOfStonesInPits + o'.bank =
        a.sumOfStonesInPits + a.bank + o.sumOfStonesInPits + o.bank + (k : Int) := by
  intro fuel
  induction fuel with
  | zero => intro k a o a' o' r h; simp [TurnExecutor.sowLoop] at h
  | succ fuel ih =>
    intro k a o a' o' r h
    rcases k with _ | k'
    · simp [TurnExecutor.sowLoop] at h
    · simp only [TurnExecutor.sowLoop] at h
      rcases hopp : TurnExecutor.dropStonesOnOpposingPlayerBoard o 0 (k' + 1) with ⟨r₁, o₁, n₁⟩
      rw [hopp] at h
      have htot₁ := dropOpposing_total (k' + 1) 0 o (by omega)
      rw [hopp] at htot₁
      simp only at htot₁
      rcases r₁ with _ | r₁
      · rcases hact : TurnExecutor.dropStonesOnActivePlayerBoard a o₁ 0 n₁ with ⟨r₂, a₂, o₂, n₂⟩
        simp only [hact] at h
        have htot₂ := dropActive_total n₁ 0 a o₁ (by omega)
        rw [hact] at htot₂
        simp only at htot₂
        rcases r₂ with _ | r₂
        · have := ih n₂ a₂ o₂ a' o' r h
          push_cast at htot₁ htot₂ this ⊢
          linarith
        · obtain ⟨rfl, rfl, rfl⟩ : r₂ = r ∧ a₂ = a' ∧ o₂ = o' := by simpa using h
          have hz := dropActive_some_zero n₁ 0 a o₁ r₂ (by rw [hact])
          rw [hact] at hz
          simp only at hz
          push_cast at htot₁ htot₂ ⊢
          rw [hz] at htot₂
          push_cast at htot₂
          linarith
      · obtain ⟨rfl, rfl, rfl⟩ : r₁ = r ∧ a = a' ∧ o₁ = o' := by simpa using h
        have hz := dropOpposing_some_zero (k' + 1) 0 o r₁ (by rw [hopp])
        rw [hopp] at hz
        simp only at hz
        push_cast at htot₁ ⊢
        rw [hz] at htot₁
        push_cast at htot₁
        linarith

/-- Total stones of a reassembled board, by player cases. -/
lemma totalStones_reassemble (player_index : Nat) (hp : player_index = 0 ∨ player_index = 1)
    (a o : SinglePlayerBoardState) :
    (BoardState.reassemble player_index a o).totalStones =
      a.sumOfStonesInPits + a.bank + o.sumOfStonesInPits + o.bank := by
  rcases hp with h | h <;> subst h <;>
    simp [BoardState.reassemble, BoardState.totalStones,
      SinglePlayerBoardState.getNumStonesInBank] <;> ring

/-- Total stones of a board split into the active and opposing sides. -/
lemma totalStones_split (player_index : Nat) (hp : player_index = 0 ∨ player_index = 1)
    (bs : BoardState) :
    bs.totalStones =
      (bs.activeSide player_index).sumOfStonesInPits + (bs.activeSide player_index).bank +
      (bs.opposingSide player_index).sumOfStonesInPits + (bs.opposingSide player_index).bank := by
  rcases hp with h | h <;> subst h <;>
    simp [BoardState.totalStones, BoardState.activeSide, BoardState.opposingSide,
      SinglePlayerBoardState.getNumStonesInBank] <;> ring

/-- C4 core for the turn executor: with non-negative pit counts, every call to
`playTurn` — valid or invalid, capture or not — conserves the total stone
count. -/
lemma playTurn_total (player_index pit_index : Nat) (bs : BoardState) (r : TurnResult)
    (bs' : BoardState)
    (hnn0 : ∀ x ∈ bs.player0.pits, 0 ≤ x) (hnn1 : ∀ x ∈ bs.player1.pits, 0 ≤ x)
    (h : TurnExecutor.playTurn player_index pit_index bs = some (r, bs')) :
    bs'.totalStones = bs.totalStones := by
  unfold TurnExecutor.playTurn at h
  by_cases h1 : player_index ≠ 0 ∧ player_index ≠ 1
  · rw [if_pos h1] at h
    obtain ⟨-, rfl⟩ : TurnResult.makeInvalidResult = r ∧ bs = bs' := by simpa using h
    rfl
  · rw [if_neg h1] at h
    have hp : player_index = 0 ∨ player_index = 1 := by
      by_cases hz : player_index = 0
      · exact Or.inl hz
      · exact Or.inr (by tauto)
    by_cases h2 : bs.getNumPits ≤ pit_index
    · rw [if_pos h2] at h
      obtain ⟨-, rfl⟩ : TurnResult.makeInvalidResult = r ∧ bs = bs' := by simpa using h
      rfl
    · rw [if_neg h2] at h
      have hannA : ∀ x ∈ (bs.activeSide player_index).pits, 0 ≤ x := by
        rcases hp with hh | hh <;> subst hh <;>
          simpa [BoardState.activeSide] using (by assumption)
      by_cases h3 : (bs.activeSide player_index).getNumStonesInPit pit_index ≤ 0
      · rw [if_pos h3] at h
        obtain ⟨-, rfl⟩ : TurnResult.makeInvalidResult = r ∧
            BoardState.reassemble player_index
              ((bs.activeSide player_index).clearStonesFromPit pit_index)
              (bs.opposingSide player_index) = bs' := by simpa using h
        have hz : (bs.activeSide player_index).getNumStonesInPit pit_index = 0 := by
          by_cases hin : pit_index < (bs.activeSide player_index).pits.length
          · have hmem : (bs.activeSide player_index).pits.getD pit_index 0 ∈
                (bs.activeSide player_index).pits := by
              rw [List.getD_eq_getElem _ _ hin]
              exact List.getElem_mem hin
            have := hannA _ hmem
            unfold SinglePlayerBoardState.getNumStonesInPit at h3 ⊢
            omega
          · unfold SinglePlayerBoardState.getNumStonesInPit
            rw [List.getD_eq_default _ _ (by omega)]
        rw [totalStones_reassemble player_index hp, totalStones_split player_index hp bs,
          SinglePlayerBoardState.sum_clearStonesFromPit,
          SinglePlayerBoardState.bank_clearStonesFromPit, hz]
        ring
      · rw [if_neg h3] at h
        have hinr : pit_index < (bs.activeSide player_index).getNumPits := by
          by_contra hout
          have : (bs.activeSide player_index).getNumStonesInPit pit_index = 0 := by
            unfold SinglePlayerBoardState.getNumStonesInPit
            rw [List.getD_eq_default]
            unfold SinglePlayerBoardState.getNumPits at hout
            omega
          omega
        have hcast : (((bs.activeSide player_index).getNumStonesInPit pit_index).toNat : Int) =
            (bs.activeSide player_index).getNumStonesInPit pit_index :=
          Int.toNat_of_nonneg (by omega)
        rcases hda : TurnExecutor.dropStonesOnActivePlayerBoard
            ((bs.activeSide player_index).clearStonesFromPit pit_index)
            (bs.opposingSide player_index) (pit_index + 1)
            ((bs.activeSide player_index).getNumStonesInPit pit_index).toNat
          with ⟨r₁, a', o', n'⟩
        simp only [hda] at h
        have htot := dropActive_total
          ((bs.activeSide player_index).getNumStonesInPit pit_index).toNat (pit_index + 1)
          ((bs.activeSide player_index).clearStonesFromPit pit_index)
          (bs.opposingSide player_index) (by simp; omega)
        rw [hda] at htot
        simp only [SinglePlayerBoardState.sum_clearStonesFromPit,
          SinglePlayerBoardState.bank_clearStonesFromPit] at htot
        rcases r₁ with _ | r₁
        · rcases hsl : TurnExecutor.sowLoop n' a' o' n' with _ | ⟨r₂, a'', o''⟩
          · simp only [hsl] at h
            simp at h
          · simp only [hsl] at h
            obtain ⟨-, rfl⟩ : r₂ = r ∧ BoardState.reassemble player_index a'' o'' = bs' := by
              simpa using h
            have hstot := sowLoop_total n' n' a' o' a'' o'' r₂ hsl
            rw [totalStones_reassemble player_index hp, totalStones_split player_index hp bs]
            rw [hcast] at htot
            linarith
        · obtain ⟨-, rfl⟩ : r₁ = r ∧ BoardState.reassemble player_index a' o' = bs' := by
            simpa using h
          have hz := dropActive_some_zero _ _ _ _ r₁ (by rw [hda])
          rw [hda] at hz
          simp only at hz
          rw [hz] at htot
          rw [totalStones_reassemble player_index hp, totalStones_split player_index hp bs]
          rw [hcast] at htot
          push_cast at htot
          linarith

namespace SinglePlayerBoardState

/-- Pointwise effect of clearing a pit. -/
lemma getNumStonesInPit_clear (s : SinglePlayerBoardState) (i j : Nat) :
    (s.clearStonesFromPit i).getNumStonesInPit j =
      if j = i then 0 else s.getNumStonesInPit j := by
  unfold clearStonesFromPit getNumStonesInPit
  by_cases hij : j = i
  · subst hij
    by_cases hin : j < s.pits.length
    · simp [List.getD_eq_getElem?_getD, List.getElem?_set_self', hin]
    · rw [List.set_eq_of_length_le (by omega : s.pits.length ≤ j), if_pos rfl,
        List.getD_eq_default _ _ (by omega : s.pits.length ≤ j)]
  · simp [hij, List.getD_eq_getElem?_getD, List.getElem?_set_ne (by omega : i ≠ j)]

/-- A fold-sum over an all-zero list is zero. -/
lemma foldl_add_all_zero : ∀ (l : List Int), (∀ x ∈ l, x = 0) → l.foldl (· + ·) 0 = 0 := by
  intro l
  induction l with
  | nil => intro _; rfl
  | cons x xs ih =>
    intro h
    simp only [List.foldl]
    rw [foldl_add_init xs (0 + x), ih (fun y hy => h y (by simp [hy])), h x (by simp)]
    ring

/-- A pit row whose every read is zero sums to zero. -/
lemma sum_eq_zero_of_all_zero (s : SinglePlayerBoardState)
    (h : ∀ j, s.getNumStonesInPit j = 0) : s.sumOfStonesInPits = 0 := by
  unfold sumOfStonesInPits
  apply foldl_add_all_zero
  intro x hx
  obtain ⟨i, hi, rfl⟩ := List.mem_iff_getElem.mp hx
  have := h i
  unfold getNumStonesInPit at this
  rwa [List.getD_eq_getElem _ _ hi] at this

end SinglePlayerBoardState

namespace GameMechanicsExecutor

/-- The clearing loop does not touch the bank. -/
lemma clearPitsFrom_bank : ∀ (count i : Nat) (s : SinglePlayerBoardState),
    (clearPitsFrom s i count).bank = s.bank := by
  intro count
  induction count with
  | zero => intro i s; rfl
  | succ count ih => intro i s; simpa [clearPitsFrom] using ih (i + 1) (s.clearStonesFromPit i)

/-- Pointwise effect of the clearing loop: pits `i ≤ j < i + count` read zero,
the rest are untouched. -/
lemma clearPitsFrom_getNumStonesInPit :
    ∀ (count i j : Nat) (s : SinglePlayerBoardState),
      (clearPitsFrom s i count).getNumStonesInPit j =
        if i ≤ j ∧ j < i + count then 0 else s.getNumStonesInPit j := by
  intro count
  induction count with
  | zero =>
    intro i j s
    simp only [clearPitsFrom]
    rw [if_neg (by omega : ¬(i ≤ j ∧ j < i + 0))]
  | succ count ih =>
    intro i j s
    simp only [clearPitsFrom]
    rw [ih (i + 1) j (s.clearStonesFromPit i),
      SinglePlayerBoardState.getNumStonesInPit_clear]
    by_cases hj : i + 1 ≤ j ∧ j < i + 1 + count
    · simp [hj, (by omega : i ≤ j ∧ j < i + (count + 1))]
    · rw [if_neg hj]
      by_cases hji : j = i
      · simp [hji, (by omega : i ≤ i ∧ i < i + (count + 1))]
      · rw [if_neg hji, if_neg (by omega : ¬(i ≤ j ∧ j < i + (count + 1)))]

/-- The swept side: bank gains the whole pit sum. -/
lemma sweepSide_bank (s : SinglePlayerBoardState) :
    (sweepSide s).bank = s.bank + s.sumOfStonesInPits := by
  unfold sweepSide
  rw [clearPitsFrom_bank]
  rfl

/-- The swept side: every pit reads zero. -/
lemma sweepSide_pits (s : SinglePlayerBoardState) :
    ∀ j, (sweepSide s).getNumStonesInPit j = 0 := by
  intro j
  unfold sweepSide
  rw [clearPitsFrom_getNumStonesInPit]
  by_cases hj : j < s.getNumPits
  · rw [if_pos (by simp; omega)]
  · rw [if_neg (by simp; omega)]
    unfold SinglePlayerBoardState.getNumStonesInPit
    have hlen : s.pits.length ≤ j := by
      unfold SinglePlayerBoardState.getNumPits at hj
      omega
    rw [SinglePlayerBoardState.pits_addStonesToBank, List.getD_eq_default _ _ hlen]

/-- The swept side: the pit sum is zero. -/
lemma sweepSide_sum (s : SinglePlayerBoardState) :
    (sweepSide s).sumOfStonesInPits = 0 :=
  SinglePlayerBoardState.sum_eq_zero_of_all_zero _ (sweepSide_pits s)

/-- C4 core for the winner query: `getWinnerPlayerIndex` conserves the total
stone count (the end-of-game sweep only moves stones into the banks). -/
lemma getWinnerPlayerIndex_total (bs : BoardState) :
    ((getWinnerPlayerIndex bs).2).totalStones = bs.totalStones := by
  unfold getWinnerPlayerIndex
  by_cases hf : isGameFinished bs = false
  · rw [if_pos hf]
  · rw [if_neg hf]
    simp only
    have h0b := sweepSide_bank bs.player0
    have h1b := sweepSide_bank bs.player1
    have h0s := sweepSide_sum bs.player0
    have h1s := sweepSide_sum bs.player1
    by_cases hc1 :
        (sweepSide bs.player1).getNumStonesInBank < (sweepSide bs.player0).getNumStonesInBank
    · rw [if_pos hc1]
      simp only [BoardState.totalStones, SinglePlayerBoardState.getNumStonesInBank]
      rw [h0b, h1b, h0s, h1s]
      ring
    · rw [if_neg hc1]
      by_cases hc2 :
          (sweepSide bs.player0).getNumStonesInBank < (sweepSide bs.player1).getNumStonesInBank
      · rw [if_pos hc2]
        simp only [BoardState.totalStones, SinglePlayerBoardState.getNumStonesInBank]
        rw [h0b, h1b, h0s, h1s]
        ring
      · rw [if_neg hc2]
        simp only [BoardState.totalStones, SinglePlayerBoardState.getNumStonesInBank]
        rw [h0b, h1b, h0s, h1s]
        ring

/-- The pit scan reports `true` exactly when all scanned pits read zero. -/
lemma pitsAreClearFrom_iff :
    ∀ (count i : Nat) (s : SinglePlayerBoardState),
      pitsAreClearFrom s i count = true ↔
        ∀ j, i ≤ j → j < i + count → s.getNumStonesInPit j = 0 := by
  intro count
  induction count with
  | zero =>
    intro i s
    simp only [pitsAreClearFrom]
    constructor
    · intro _ j h1 h2
      exact absurd h2 (by omega)
    · intro _
      trivial
  | succ count ih =>
    intro i s
    simp only [pitsAreClearFrom]
    by_cases hz : s.getNumStonesInPit i ≠ 0
    · simp only [if_pos hz]
      constructor
      · intro hfalse; exact absurd hfalse (by simp)
      · intro hall
        exact absurd (hall i (by omega) (by omega)) hz
    · simp only [if_neg hz, ih (i + 1) s]
      push_neg at hz
      constructor
      · intro hall j h1 h2
        rcases Nat.eq_or_lt_of_le h1 with rfl | hlt
        · exact hz
        · exact hall j (by omega) (by omega)
      · intro hall j h1 h2
        exact hall j (by omega) (by omega)

/-- `isSinglePlayerBoardFinished` holds exactly when every pit is zero. -/
lemma isSinglePlayerBoardFinished_iff (s : SinglePlayerBoardState) :
    isSinglePlayerBoardFinished s = true ↔ ∀ x ∈ s.pits, x = 0 := by
  unfold isSinglePlayerBoardFinished
  rw [pitsAreClearFrom_iff]
  constructor
  · intro h x hx
    obtain ⟨i, hi, rfl⟩ := List.mem_iff_getElem.mp hx
    have := h i (by omega) (by simpa [SinglePlayerBoardState.getNumPits] using hi)
    unfold SinglePlayerBoardState.getNumStonesInPit at this
    rwa [List.getD_eq_getElem _ _ hi] at this
  · intro h j _ hj
    unfold SinglePlayerBoardState.getNumStonesInPit
    have hjlen : j < s.pits.length := by
      simpa [SinglePlayerBoardState.getNumPits] using hj
    rw [List.getD_eq_getElem _ _ hjlen]
    exact h _ (List.getElem_mem hjlen)

/-- `isGameFinished` holds exactly when one side's pits are all zero. -/
lemma isGameFinished_iff (bs : BoardState) :
    isGameFinished bs = true ↔
      (∀ x ∈ bs.player0.pits, x = 0) ∨ (∀ x ∈ bs.player1.pits, x = 0) := by
  unfold isGameFinished
  by_cases h0 : isSinglePlayerBoardFinished bs.player0
  · simp [h0, Or.inl ((isSinglePlayerBoardFinished_iff _).mp h0)]
  · by_cases h1 : isSinglePlayerBoardFinished bs.player1
    · simp [h0, h1, Or.inr ((isSinglePlayerBoardFinished_iff _).mp h1)]
    · simp only [h0, h1, if_false, Bool.false_eq_true, false_iff]
      push_neg
      refine ⟨?_, ?_⟩
      · by_contra hno
        push_neg at hno
        exact h0 ((isSinglePlayerBoardFinished_iff _).mpr hno)
      · by_contra hno
        push_neg at hno
        exact h1 ((isSinglePlayerBoardFinished_iff _).mpr hno)

end GameMechanicsExecutor

/-- The three per-root-pit branch counters of `Solver` (each sized to the pit
count, reset at the start of `solve`). -/
structure SolverState where
  num_winning_branches : List Nat
  num_drawn_branches : List Nat
  num_total_branches : List Nat
deriving DecidableEq, Repr

namespace SolverState

/-- `++num_winning_branches_.at(i)`. -/
def incWinning (st : SolverState) (i : Nat) : SolverState :=
  { st with num_winning_branches :=
      st.num_winning_branches.set i (st.num_winning_branches.getD i 0 + 1) }

/-- `++num_drawn_branches_.at(i)`. -/
def incDrawn (st : SolverState) (i : Nat) : SolverState :=
  { st with num_drawn_branches :=
      st.num_drawn_branches.set i (st.num_drawn_branches.getD i 0 + 1) }

/-- `++num_total_branches_.at(i)`. -/
def incTotal (st : SolverState) (i : Nat) : SolverState :=
  { st with num_total_branches :=
      st.num_total_branches.set i (st.num_total_branches.getD i 0 + 1) }

end SolverState

namespace Solver

/-- The terminal-position block of `Solver::solveInner` (solver.h lines
95-122): counter updates indexed by the root pit `initial_pit`, plus the early
returns.  `some b` models an early `return b`; `none` means the loop
continues.  Note that the final `++num_total_branches_.at(initial_pit_index)`
(line 120) runs on every path that does not return early, so a winning
terminal observed while the opponent is the mover bumps the total counter
twice. -/
def solveInnerTerminalCase (winner initial_active initial_opposing active_entry initial_pit : Nat)
    (st : SolverState) : Option Bool × SolverState :=
  if winner = initial_active then
    let st' := (st.incWinning initial_pit).incTotal initial_pit
    if active_entry = initial_active then (some true, st')
    else (none, st'.incTotal initial_pit)
  else if winner = initial_opposing then
    if active_entry = initial_opposing then (some false, st)
    else (none, st.incTotal initial_pit)
  else
    (none, (st.incDrawn initial_pit).incTotal initial_pit)

/-- The move loop of `Solver::solveInner`, iterating pit `i` with `count`
pit indices left to try (`count = getNumPits - i`); `inner` stands for the
recursive call to `solveInner` one level deeper.  `some (some b, st)` models an
early `return b`; `some (none, st)` models completing the loop; `none`
propagates the modelled exception / fuel exhaustion. -/
def solveInnerLoop
    (inner : BoardState → GameMechanicsExecutor → SolverState → Option (Bool × SolverState))
    (bs : BoardState) (gme : GameMechanicsExecutor)
    (active_entry initial_active initial_opposing initial_pit : Nat) :
    Nat → Nat → SolverState → Option (Option Bool × SolverState)
  | _, 0, st => some (none, st)
  | i, count + 1, st =>
    match gme.playTurn i bs with
    | none => none
    | some (turn_valid, gme_i, bs_i) =>
      if turn_valid = false then
        solveInnerLoop inner bs gme active_entry initial_active initial_opposing initial_pit
          (i + 1) count st
      else
        match GameMechanicsExecutor.getWinnerPlayerIndex bs_i with
        | (some winner, _) =>
          match solveInnerTerminalCase winner initial_active initial_opposing active_entry
              initial_pit st with
          | (some b, st') => some (some b, st')
          | (none, st') =>
            solveInnerLoop inner bs gme active_entry initial_active initial_opposing initial_pit
              (i + 1) count st'
        | (none, bs_i') =>
          match inner bs_i' gme_i st with
          | none => none
          | some (guaranteed_win, st') =>
            if guaranteed_win = true ∧ active_entry = initial_active then some (some true, st')
            else if guaranteed_win = false ∧ active_entry ≠ initial_active then
              some (some false, st')
            else
              solveInnerLoop inner bs gme active_entry initial_active initial_opposing initial_pit
                (i + 1) count st'

/-- `Solver::solveInner`.  The C++ recursion terminates because games are
finite; here it is structurally recursive on `fuel`, with `none` modelling
fuel exhaustion (and the propagated turn-executor exception). -/
def solveInner : Nat → BoardState → GameMechanicsExecutor → Nat → Nat → SolverState →
    Option (Bool × SolverState)
  | 0, _, _, _, _, _ => none
  | fuel + 1, bs, gme, initial_active, initial_pit, st =>
    match solveInnerLoop (fun b g s => solveInner fuel b g initial_active initial_pit s)
        bs gme gme.active_player_index initial_active ((initial_active + 1) % 2) initial_pit
        0 bs.getNumPits st with
    | none => none
    | some (some b, st') => some (b, st')
    | some (none, st') =>
      if gme.active_player_index = (initial_active + 1) % 2 then some (true, st')
      else some (false, st')

/-- The root move loop of `Solver::solve` (solver.h lines 23-55), iterating
root pit `i` with `count` indices left.  `some (some i, st)` models the
short-circuit `return (i, true)`; `some (none, st)` models completing the loop
with final counters `st`. -/
def solveRootLoop (fuel : Nat) (bs : BoardState) (gme : GameMechanicsExecutor)
    (initial_active : Nat) : Nat → Nat → SolverState → Option (Option Nat × SolverState)
  | _, 0, st => some (none, st)
  | i, count + 1, st =>
    match gme.playTurn i bs with
    | none => none
    | some (turn_valid, gme_i, bs_i) =>
      if turn_valid = false then solveRootLoop fuel bs gme initial_active (i + 1) count st
      else
        match GameMechanicsExecutor.getWinnerPlayerIndex bs_i with
        | (some winner, _) =>
          if winner = initial_active then some (some i, st)
          else solveRootLoop fuel bs gme initial_active (i + 1) count st
        | (none, bs_i') =>
          match solveInner fuel bs_i' gme_i initial_active i st with
          | none => none
          | some (true, st') => some (some i, st')
          | some (false, st') => solveRootLoop fuel bs gme initial_active (i + 1) count st'

/-- The fallback selection loop of `Solver::solve` (solver.h lines 57-69).
The C++ ratio `winning / total` is computed in `double`; it is modelled as an
exact rational.  The `total = 0` guard models the `0.0/0.0 = NaN` comparison:
the counters always satisfy `winning ≤ total` (they are incremented together),
so `total = 0` forces `winning = 0`, the C++ ratio is NaN, and a NaN
comparison is false — such a pit never replaces the running best. -/
def fallbackLoop (num_winning num_total : List Nat) :
    Nat → Nat → ℚ → Nat → Nat
  | _, 0, _, idx => idx
  | i, count + 1, highest, idx =>
    if num_total.getD i 0 = 0 then
      fallbackLoop num_winning num_total (i + 1) count highest idx
    else
      if highest < (num_winning.getD i 0 : ℚ) / (num_total.getD i 0 : ℚ) then
        fallbackLoop num_winning num_total (i + 1) count
          ((num_winning.getD i 0 : ℚ) / (num_total.getD i 0 : ℚ)) i
      else
        fallbackLoop num_winning num_total (i + 1) count highest idx

/-- `Solver::solve`: the root loop with its two short-circuit returns, then
the fallback argmax (initialised to ratio `0.0`, index `0`). -/
def solve (fuel : Nat) (bs : BoardState) (gme : GameMechanicsExecutor) : Option (Nat × Bool) :=
  let st0 : SolverState :=
    ⟨List.replicate bs.getNumPits 0, List.replicate bs.getNumPits 0,
      List.replicate bs.getNumPits 0⟩
  match solveRootLoop fuel bs gme gme.active_player_index 0 bs.getNumPits st0 with
  | none => none
  | some (some i, _) => some (i, true)
  | some (none, st) =>
    some (fallbackLoop st.num_winning_branches st.num_total_branches 0 bs.getNumPits 0 0, false)

end Solver

/-- Setting a list entry to the value it already reads changes nothing. -/
lemma set_zero_of_getD_zero : ∀ (l : List Int) (i : Nat), l.getD i 0 = 0 → l.set i 0 = l := by
  intro l
  induction l with
  | nil => intro i _; rfl
  | cons x xs ih =>
    intro i h
    cases i with
    | zero => simpa using h.symm ▸ rfl
    | succ i => simpa [List.set] using ih i (by simpa using h)

/-- Reassembling the split sides of a board yields the board back. -/
lemma reassemble_sides (player_index : Nat) (hp : player_index = 0 ∨ player_index = 1)
    (bs : BoardState) :
    BoardState.reassemble player_index (bs.activeSide player_index)
      (bs.opposingSide player_index) = bs := by
  rcases hp with h | h <;> subst h <;>
    simp [BoardState.reassemble, BoardState.activeSide, BoardState.opposingSide]

/-- Every turn result reported by the active-side drop phase is valid. -/
lemma dropActive_some_valid :
    ∀ (k cur : Nat) (a o : SinglePlayerBoardState) (r : TurnResult),
      (TurnExecutor.dropStonesOnActivePlayerBoard a o cur k).1 = some r → r.valid = true := by
  intro k
  induction k with
  | zero =>
    intro cur a o r h
    simp only [TurnExecutor.dropStonesOnActivePlayerBoard, Option.some.injEq] at h
    rw [← h]
    rfl
  | succ k ih =>
    intro cur a o r h
    by_cases hc : cur = a.getNumPits
    · rcases Nat.eq_zero_or_pos k with hk0 | hk1
      · subst hk0
        simp [TurnExecutor.dropStonesOnActivePlayerBoard, hc] at h
        subst h
        rfl
      · simp only [TurnExecutor.dropStonesOnActivePlayerBoard, if_pos hc] at h
        rw [if_neg (by omega : ¬k = 0)] at h
        simp at h
    · simp only [TurnExecutor.dropStonesOnActivePlayerBoard, if_neg hc] at h
      exact ih (cur + 1) (a.addStoneToPit cur) o r h

/-- Every turn result reported by the opposing-side drop phase is valid. -/
lemma dropOpposing_some_valid :
    ∀ (k cur : Nat) (o : SinglePlayerBoardState) (r : TurnResult),
      (TurnExecutor.dropStonesOnOpposingPlayerBoard o cur k).1 = some r → r.valid = true := by
  intro k
  induction k with
  | zero =>
    intro cur o r h
    simp only [TurnExecutor.dropStonesOnOpposingPlayerBoard, Option.some.injEq] at h
    rw [← h]
    rfl
  | succ k ih =>
    intro cur o r h
    by_cases hc : cur = o.getNumPits
    · simp [TurnExecutor.dropStonesOnOpposingPlayerBoard, hc] at h
    · simp only [TurnExecutor.dropStonesOnOpposingPlayerBoard, if_neg hc] at h
      exact ih (cur + 1) (o.addStoneToPit cur) r h

/-- Every turn result reported by the sowing loop is valid. -/
lemma sowLoop_some_valid :
    ∀ (fuel k : Nat) (a o a' o' : SinglePlayerBoardState) (r : TurnResult),
      TurnExecutor.sowLoop fuel a o k = some (r, a', o') → r.valid = true := by
  intro fuel
  induction fuel with
  | zero => intro k a o a' o' r h; simp [TurnExecutor.sowLoop] at h
  | succ fuel ih =>
    intro k a o a' o' r h
    rcases k with _ | k'
    · simp [TurnExecutor.sowLoop] at h
    · simp only [TurnExecutor.sowLoop] at h
      rcases hopp : TurnExecutor.dropStonesOnOpposingPlayerBoard o 0 (k' + 1) with ⟨r₁, o₁, n₁⟩
      rw [hopp] at h
      rcases r₁ with _ | r₁
      · rcases hact : TurnExecutor.dropStonesOnActivePlayerBoard a o₁ 0 n₁ with ⟨r₂, a₂, o₂, n₂⟩
        simp only [hact] at h
        rcases r₂ with _ | r₂
        · exact ih n₂ a₂ o₂ a' o' r h
        · obtain ⟨rfl, -, -⟩ : r₂ = r ∧ a₂ = a' ∧ o₂ = o' := by simpa using h
          exact dropActive_some_valid n₁ 0 a o₁ r₂ (by rw [hact])
      · obtain ⟨rfl, -, -⟩ : r₁ = r ∧ a = a' ∧ o₁ = o' := by simpa using h
        exact dropOpposing_some_valid (k' + 1) 0 o r₁ (by rw [hopp])

/-- The winner query on a finished board: both sides swept, banks compared
with the tie sentinel `2`. -/
lemma getWinner_finished (bs : BoardState)
    (hf : GameMechanicsExecutor.isGameFinished bs = true) :
    GameMechanicsExecutor.getWinnerPlayerIndex bs =
      (some (if (GameMechanicsExecutor.sweepSide bs.player1).bank <
                (GameMechanicsExecutor.sweepSide bs.player0).bank then 0
             else if (GameMechanicsExecutor.sweepSide bs.player0).bank <
                (GameMechanicsExecutor.sweepSide bs.player1).bank then 1 else 2),
       ⟨GameMechanicsExecutor.sweepSide bs.player0, GameMechanicsExecutor.sweepSide bs.player1⟩) := by
  unfold GameMechanicsExecutor.getWinnerPlayerIndex
  rw [if_neg (by rw [hf]; simp)]
  simp only [SinglePlayerBoardState.getNumStonesInBank]
  by_cases hc1 : (GameMechanicsExecutor.sweepSide bs.player1).bank <
      (GameMechanicsExecutor.sweepSide bs.player0).bank
  · rw [if_pos hc1, if_pos hc1]
  · rw [if_neg hc1, if_neg hc1]
    by_cases hc2 : (GameMechanicsExecutor.sweepSide bs.player0).bank <
        (GameMechanicsExecutor.sweepSide bs.player1).bank
    · rw [if_pos hc2, if_pos hc2]
    · rw [if_neg hc2, if_neg hc2]

namespace Solver

/-- The early-return verdict of the terminal block does not depend on the
counter state. -/
lemma solveInnerTerminalCase_fst (winner ia iop ae ip : Nat) (st₁ st₂ : SolverState) :
    (solveInnerTerminalCase winner ia iop ae ip st₁).1 =
      (solveInnerTerminalCase winner ia iop ae ip st₂).1 := by
  unfold solveInnerTerminalCase
  by_cases h1 : winner = ia
  · by_cases h2 : ae = ia <;> simp [h1, h2]
  · simp only [if_neg h1]
    by_cases h2 : winner = iop
    · simp only [if_pos h2]
      by_cases h3 : ae = iop <;> simp [h3]
    · simp only [if_neg h2]

/-- The loop verdict of `solveInner` does not depend on the counter state,
provided the recursive call's verdict does not. -/
lemma solveInnerLoop_fst_indep
    (inner : BoardState → GameMechanicsExecutor → SolverState → Option (Bool × SolverState))
    (hinner : ∀ b g s₁ s₂, (inner b g s₁).map Prod.fst = (inner b g s₂).map Prod.fst)
    (bs : BoardState) (gme : GameMechanicsExecutor) (ae ia iop ip : Nat) :
    ∀ (count i : Nat) (st₁ st₂ : SolverState),
      (solveInnerLoop inner bs gme ae ia iop ip i count st₁).map Prod.fst =
        (solveInnerLoop inner bs gme ae ia iop ip i count st₂).map Prod.fst := by
  intro count
  induction count with
  | zero => intro i st₁ st₂; rfl
  | succ count ih =>
    intro i st₁ st₂
    simp only [solveInnerLoop]
    rcases hpt : gme.playTurn i bs with _ | ⟨tv, gme_i, bs_i⟩
    · rfl
    · by_cases htv : tv = false
      · simp only [if_pos htv]
        exact ih (i + 1) st₁ st₂
      · simp only [if_neg htv]
        rcases hw : GameMechanicsExecutor.getWinnerPlayerIndex bs_i with ⟨w?, bs_i'⟩
        rcases w? with _ | w
        · rcases hin₁ : inner bs_i' gme_i st₁ with _ | ⟨g₁, stx₁⟩ <;>
            rcases hin₂ : inner bs_i' gme_i st₂ with _ | ⟨g₂, stx₂⟩
          · simp [hin₁, hin₂]
          · have := hinner bs_i' gme_i st₁ st₂
            rw [hin₁, hin₂] at this
            simp at this
          · have := hinner bs_i' gme_i st₁ st₂
            rw [hin₁, hin₂] at this
            simp at this
          · have hg : g₁ = g₂ := by
              have := hinner bs_i' gme_i st₁ st₂
              rw [hin₁, hin₂] at this
              simpa using this
            subst hg
            simp only [hin₁, hin₂]
            by_cases hc1 : g₁ = true ∧ ae = ia
            · simp [hc1]
            · simp only [if_neg hc1]
              by_cases hc2 : g₁ = false ∧ ae ≠ ia
              · simp [hc2]
              · simp only [if_neg hc2]
                exact ih (i + 1) stx₁ stx₂
        · rcases ht₁ : solveInnerTerminalCase w ia iop ae ip st₁ with ⟨b₁?, st₁'⟩
          rcases ht₂ : solveInnerTerminalCase w ia iop ae ip st₂ with ⟨b₂?, st₂'⟩
          have hb : b₁? = b₂? := by
            have := solveInnerTerminalCase_fst w ia iop ae ip st₁ st₂
            rw [ht₁, ht₂] at this
            exact this
          subst hb
          simp only [ht₁, ht₂]
          rcases b₁? with _ | b
          · exact ih (i + 1) st₁' st₂'
          · rfl

/-- The verdict of `solveInner` (forced win or not, and whether it errors) is
independent of the branch counters: they are write-only statistics. -/
lemma solveInner_fst_indep :
    ∀ (fuel : Nat) (bs : BoardState) (gme : GameMechanicsExecutor) (ia ip : Nat)
      (st₁ st₂ : SolverState),
      (solveInner fuel bs gme ia ip st₁).map Prod.fst =
        (solveInner fuel bs gme ia ip st₂).map Prod.fst := by
  intro fuel
  induction fuel with
  | zero => intro bs gme ia ip st₁ st₂; rfl
  | succ fuel ih =>
    intro bs gme ia ip st₁ st₂
    simp only [solveInner]
    have hloop := solveInnerLoop_fst_indep
      (fun b g s => solveInner fuel b g ia ip s)
      (fun b g s₁ s₂ => ih b g ia ip s₁ s₂) bs gme
      gme.active_player_index ia ((ia + 1) % 2) ip bs.getNumPits 0 st₁ st₂
    rcases h₁ : solveInnerLoop (fun b g s => solveInner fuel b g ia ip s) bs gme
        gme.active_player_index ia ((ia + 1) % 2) ip 0 bs.getNumPits st₁ with _ | ⟨b₁?, st₁'⟩ <;>
      rcases h₂ : solveInnerLoop (fun b g s => solveInner fuel b g ia ip s) bs gme
        gme.active_player_index ia ((ia + 1) % 2) ip 0 bs.getNumPits st₂ with _ | ⟨b₂?, st₂'⟩
    · rfl
    · rw [h₁, h₂] at hloop; simp at hloop
    · rw [h₁, h₂] at hloop; simp at hloop
    · have hb : b₁? = b₂? := by
        rw [h₁, h₂] at hloop
        simpa using hloop
      subst hb
      rcases b₁? with _ | b
      · by_cases hc : gme.active_player_index = (ia + 1) % 2 <;> simp [hc]
      · rfl

end Solver

namespace Solver

/-- Specification-side description of a root move's short-circuit verdict,
following the spec: the root pit `i` yields a guaranteed win (`some true`)
when its move is valid and either immediately ends the game with the root
player as winner, or the inner search reports a forced win; `some false`
otherwise (invalid moves and root-level terminal losses or ties included);
`none` when the modelled exception / fuel exhaustion propagates.  By
`solveInner_fst_indep` the verdict does not depend on the counter state, so
the empty counters are used. -/
def rootShortCircuit (fuel : Nat) (bs : BoardState) (gme : GameMechanicsExecutor)
    (initial_active i : Nat) : Option Bool :=
  match gme.playTurn i bs with
  | none => none
  | some (turn_valid, gme_i, bs_i) =>
    if turn_valid = false then some false
    else
      match GameMechanicsExecutor.getWinnerPlayerIndex bs_i with
      | (some winner, _) => if winner = initial_active then some true else some false
      | (none, bs_i') =>
        (solveInner fuel bs_i' gme_i initial_active i ⟨[], [], []⟩).map Prod.fst

/-- One step of the root loop, described by the pit's spec-side verdict. -/
lemma solveRootLoop_step (fuel : Nat) (bs : BoardState) (gme : GameMechanicsExecutor)
    (ia count i : Nat) (st : SolverState) :
    (rootShortCircuit fuel bs gme ia i = none →
      solveRootLoop fuel bs gme ia i (count + 1) st = none)
    ∧ (rootShortCircuit fuel bs gme ia i = some true →
      ∃ st' : SolverState, solveRootLoop fuel bs gme ia i (count + 1) st = some (some i, st'))
    ∧ (rootShortCircuit fuel bs gme ia i = some false →
      ∃ st' : SolverState, solveRootLoop fuel bs gme ia i (count + 1) st =
        solveRootLoop fuel bs gme ia (i + 1) count st') := by
  unfold rootShortCircuit
  simp only [solveRootLoop]
  rcases hpt : gme.playTurn i bs with _ | ⟨tv, gme_i, bs_i⟩
  · exact ⟨fun _ => rfl, fun h => by simp at h, fun h => by simp at h⟩
  · by_cases htv : tv = false
    · simp only [if_pos htv]
      exact ⟨fun h => by simp at h, fun h => by simp at h, fun _ => ⟨st, rfl⟩⟩
    · simp only [if_neg htv]
      rcases hw : GameMechanicsExecutor.getWinnerPlayerIndex bs_i with ⟨w?, bs_i'⟩
      rcases w? with _ | w
      · rcases hsi : solveInner fuel bs_i' gme_i ia i st with _ | ⟨b, st'⟩
        · have hmap : (solveInner fuel bs_i' gme_i ia i (⟨[], [], []⟩ : SolverState)).map
              Prod.fst = none := by
            rw [solveInner_fst_indep fuel bs_i' gme_i ia i _ st, hsi]
            rfl
          refine ⟨fun _ => by simp [hsi], fun h => ?_, fun h => ?_⟩ <;>
            · simp only [hmap] at h
              simp at h
        · have hmap : (solveInner fuel bs_i' gme_i ia i (⟨[], [], []⟩ : SolverState)).map
              Prod.fst = some b := by
            rw [solveInner_fst_indep fuel bs_i' gme_i ia i _ st, hsi]
            rfl
          rcases b with _ | _
          · refine ⟨fun h => ?_, fun h => ?_, fun _ => ⟨st', by simp [hsi]⟩⟩ <;>
              · simp only [hmap] at h
                simp at h
          · refine ⟨fun h => ?_, fun _ => ⟨st', by simp [hsi]⟩, fun h => ?_⟩ <;>
              · simp only [hmap] at h
                simp at h
      · by_cases hwia : w = ia
        · simp only [if_pos hwia]
          exact ⟨fun h => by simp at h, fun _ => ⟨st, by simp⟩, fun h => by simp at h⟩
        · simp only [if_neg hwia]
          exact ⟨fun h => by simp at h, fun h => by simp at h, fun _ => ⟨st, by simp⟩⟩

/-- Characterisation of the root loop of `solve`: a short-circuit return names
the first pit (scanning in increasing order) whose verdict is `some true`,
and a completed loop means every scanned pit's verdict was `some false`. -/
lemma solveRootLoop_char (fuel : Nat) (bs : BoardState) (gme : GameMechanicsExecutor)
    (ia : Nat) :
    ∀ (count i : Nat) (st : SolverState),
      (∀ (p : Nat) (st' : SolverState),
        solveRootLoop fuel bs gme ia i count st = some (some p, st') →
          i ≤ p ∧ p < i + count ∧ rootShortCircuit fuel bs gme ia p = some true ∧
          ∀ j, i ≤ j → j < p → rootShortCircuit fuel bs gme ia j = some false)
      ∧ (∀ st' : SolverState,
        solveRootLoop fuel bs gme ia i count st = some (none, st') →
          ∀ j, i ≤ j → j < i + count → rootShortCircuit fuel bs gme ia j = some false) := by
  intro count
  induction count with
  | zero =>
    intro i st
    constructor
    · intro p st' h
      simp [solveRootLoop] at h
    · intro st' h j h1 h2
      omega
  | succ count ih =>
    intro i st
    rcases hsc : rootShortCircuit fuel bs gme ia i with _ | b
    · have hnone := (solveRootLoop_step fuel bs gme ia count i st).1 hsc
      constructor
      · intro p st' h
        rw [hnone] at h
        simp at h
      · intro st' h
        rw [hnone] at h
        simp at h
    · rcases b with _ | _
      · obtain ⟨st'', hrec⟩ := (solveRootLoop_step fuel bs gme ia count i st).2.2 hsc
        constructor
        · intro p st' h
          rw [hrec] at h
          obtain ⟨hp1, hp2, hp3, hp4⟩ := ((ih (i + 1) st'').1 p st' h)
          refine ⟨by omega, by omega, hp3, ?_⟩
          intro j hj1 hj2
          rcases Nat.eq_or_lt_of_le hj1 with rfl | hlt
          · exact hsc
          · exact hp4 j (by omega) hj2
        · intro st' h j hj1 hj2
          rw [hrec] at h
          rcases Nat.eq_or_lt_of_le hj1 with rfl | hlt
          · exact hsc
          · exact (ih (i + 1) st'').2 st' h j (by omega) (by omega)
      · obtain ⟨st'', hcirc⟩ := (solveRootLoop_step fuel bs gme ia count i st).2.1 hsc
        constructor
        · intro p st' h
          rw [hcirc] at h
          obtain ⟨h1, -⟩ : (some i : Option Nat) = some p ∧ st'' = st' := by simpa using h
          obtain rfl : i = p := by simpa using h1
          exact ⟨le_rfl, by omega, hsc, fun j hj1 hj2 => by omega⟩
        · intro st' h
          rw [hcirc] at h
          simp at h

end Solver

namespace Solver

/-- The win ratio of root pit `i`, as an exact rational; `none` when no branch
was observed (`total = 0`, the C++ `0.0/0.0 = NaN` case). -/
def ratioAt (num_winning num_total : List Nat) (i : Nat) : Option ℚ :=
  if num_total.getD i 0 = 0 then none
  else some ((num_winning.getD i 0 : ℚ) / (num_total.getD i 0 : ℚ))

/-- The spec's description of the fallback choice `p`: either some pit attains
a strictly positive maximal ratio and `p` is the first pit attaining that
maximum (ties resolved in favour of the first seen, pits without observed
branches never qualifying), or no pit has a positive ratio and `p` is the
initialisation index `0`. -/
def IsFallbackChoice (N : Nat) (num_winning num_total : List Nat) (p : Nat) : Prop :=
  (∃ q : ℚ, 0 < q ∧ ratioAt num_winning num_total p = some q ∧ p < N ∧
    (∀ i, i < N → ∀ r, ratioAt num_winning num_total i = some r → r ≤ q) ∧
    (∀ i, i < p → ∀ r, ratioAt num_winning num_total i = some r → r < q))
  ∨ (p = 0 ∧ ∀ i, i < N → ∀ r, ratioAt num_winning num_total i = some r → r ≤ 0)

/-- Ratios are never negative. -/
lemma ratioAt_nonneg (num_winning num_total : List Nat) (i : Nat) (r : ℚ)
    (h : ratioAt num_winning num_total i = some r) : 0 ≤ r := by
  unfold ratioAt at h
  by_cases ht : num_total.getD i 0 = 0
  · rw [if_pos ht] at h
    exact absurd h (by simp)
  · rw [if_neg ht] at h
    obtain rfl : ((num_winning.getD i 0 : ℚ) / (num_total.getD i 0 : ℚ)) = r := by
      simpa using h
    positivity

/-- Invariant-carrying run of the fallback loop: the result satisfies the
spec's description of the choice. -/
lemma fallbackLoop_invariant (num_winning num_total : List Nat) (N : Nat) :
    ∀ (count i : Nat) (highest : ℚ) (idx : Nat), i + count = N →
      0 ≤ highest →
      (∀ j, j < i → ∀ r, ratioAt num_winning num_total j = some r → r ≤ highest) →
      ((0 < highest ∧ idx < i ∧ ratioAt num_winning num_total idx = some highest ∧
          ∀ j, j < idx → ∀ r, ratioAt num_winning num_total j = some r → r < highest)
        ∨ (highest = 0 ∧ idx = 0)) →
      IsFallbackChoice N num_winning num_total
        (fallbackLoop num_winning num_total i count highest idx) := by
  intro count
  induction count with
  | zero =>
    intro i highest idx hiN h0 hbound hdisj
    simp only [fallbackLoop]
    rcases hdisj with ⟨hpos, hidx, hratio, hfirst⟩ | ⟨h0', rfl⟩
    · exact Or.inl ⟨highest, hpos, hratio, by omega,
        fun j hj r hr => hbound j (by omega) r hr, hfirst⟩
    · subst h0'
      exact Or.inr ⟨rfl, fun j hj r hr => hbound j (by omega) r hr⟩
  | succ count ih =>
    intro i highest idx hiN h0 hbound hdisj
    simp only [fallbackLoop]
    by_cases ht : num_total.getD i 0 = 0
    · rw [if_pos ht]
      have hdisj' : (0 < highest ∧ idx < i + 1 ∧
          ratioAt num_winning num_total idx = some highest ∧
          ∀ j, j < idx → ∀ r, ratioAt num_winning num_total j = some r → r < highest)
          ∨ (highest = 0 ∧ idx = 0) := by
        rcases hdisj with ⟨a, b, c, d⟩ | hr
        · exact Or.inl ⟨a, by omega, c, d⟩
        · exact Or.inr hr
      refine ih (i + 1) highest idx (by omega) h0 ?_ hdisj'
      intro j hj r hr
      rcases Nat.lt_succ_iff_lt_or_eq.mp hj with hlt | rfl
      · exact hbound j hlt r hr
      · unfold ratioAt at hr
        rw [if_pos ht] at hr
        exact absurd hr (by simp)
    · rw [if_neg ht]
      have hratio_i : ratioAt num_winning num_total i =
          some ((num_winning.getD i 0 : ℚ) / (num_total.getD i 0 : ℚ)) := by
        unfold ratioAt
        rw [if_neg ht]
      by_cases hcmp : highest < (num_winning.getD i 0 : ℚ) / (num_total.getD i 0 : ℚ)
      · rw [if_pos hcmp]
        refine ih (i + 1) _ i (by omega) (by linarith) ?_ ?_
        · intro j hj r hr
          rcases Nat.lt_succ_iff_lt_or_eq.mp hj with hlt | rfl
          · exact le_of_lt (lt_of_le_of_lt (hbound j hlt r hr) hcmp)
          · rw [hratio_i] at hr
            obtain rfl : ((num_winning.getD j 0 : ℚ) / (num_total.getD j 0 : ℚ)) = r := by
              simpa using hr
            exact le_rfl
        · exact Or.inl ⟨by linarith, by omega, hratio_i,
            fun j hj r hr => lt_of_le_of_lt (hbound j (by omega) r hr) hcmp⟩
      · rw [if_neg hcmp]
        push_neg at hcmp
        have hdisj' : (0 < highest ∧ idx < i + 1 ∧
            ratioAt num_winning num_total idx = some highest ∧
            ∀ j, j < idx → ∀ r, ratioAt num_winning num_total j = some r → r < highest)
            ∨ (highest = 0 ∧ idx = 0) := by
          rcases hdisj with ⟨a, b, c, d⟩ | hr
          · exact Or.inl ⟨a, by omega, c, d⟩
          · exact Or.inr hr
        refine ih (i + 1) highest idx (by omega) h0 ?_ hdisj'
        intro j hj r hr
        rcases Nat.lt_succ_iff_lt_or_eq.mp hj with hlt | rfl
        · exact hbound j hlt r hr
        · rw [hratio_i] at hr
          obtain rfl : ((num_winning.getD j 0 : ℚ) / (num_total.getD j 0 : ℚ)) = r := by
            simpa using hr
          exact hcmp

/-- The fallback loop, started as `solve` starts it, satisfies the spec's
description of the fallback choice. -/
lemma fallbackLoop_isChoice (num_winning num_total : List Nat) (N : Nat) :
    IsFallbackChoice N num_winning num_total
      (fallbackLoop num_winning num_total 0 N 0 0) := by
  refine fallbackLoop_invariant num_winning num_total N N 0 0 0 (by omega) le_rfl ?_ ?_
  · intro j hj r hr
    omega
  · exact Or.inr ⟨rfl, rfl⟩

/-- With no winning branches recorded anywhere, the fallback loop never moves
off its initial index. -/
lemma fallbackLoop_zero (num_winning num_total : List Nat)
    (hw : ∀ i, num_winning.getD i 0 = 0) :
    ∀ (count i idx : Nat), fallbackLoop num_winning num_total i count 0 idx = idx := by
  intro count
  induction count with
  | zero => intro i idx; rfl
  | succ count ih =>
    intro i idx
    simp only [fallbackLoop]
    by_cases ht : num_total.getD i 0 = 0
    · rw [if_pos ht]
      exact ih (i + 1) idx
    · rw [if_neg ht]
      have hzero : ((num_winning.getD i 0 : ℚ) / (num_total.getD i 0 : ℚ)) = 0 := by
        rw [hw i]
        simp
      rw [if_neg (by rw [hzero]; exact lt_irrefl 0)]
      exact ih (i + 1) idx

end Solver

/-- The spec-side turn result ends in the bank exactly when the last stone's
slot is the mover's bank. -/
lemma specSowResult_ended_iff (N start k : Nat) (a o : SinglePlayerBoardState) :
    ((specSowResult N start k a o).1.ended_in_bank = true) ↔
      lastSlot N start k = Slot.ownBank := by
  unfold specSowResult
  rcases hls : lastSlot N start k with i | _ | i <;>
    simp [hls, TurnResult.makeEndedInBankResult, TurnResult.makeNotEndedInBankResult]

/-- Sowing preserves the pit counts of both sides. -/
lemma sowStones_getNumPits (N : Nat) :
    ∀ (k p : Nat) (st : SinglePlayerBoardState × SinglePlayerBoardState),
      (sowStones N p k st).1.getNumPits = st.1.getNumPits ∧
      (sowStones N p k st).2.getNumPits = st.2.getNumPits := by
  intro k
  induction k with
  | zero => intro p st; exact ⟨rfl, rfl⟩
  | succ k ih =>
    intro p st
    simp only [sowStones]
    have := ih ((p + 1) % (2 * N + 1)) (placeStone N p st)
    unfold placeStone at this ⊢
    rcases hs : slotOfPos N p with i | _ | i <;> rw [hs] at this <;> simpa using this

/-- Inversion: a slot can only be `ownPit i` for the in-range position `i`. -/
lemma slotOfPos_ownPit (N p i : Nat) (h : slotOfPos N p = Slot.ownPit i) :
    p = i ∧ i < N := by
  unfold slotOfPos at h
  by_cases h1 : p < N
  · rw [if_pos h1] at h
    obtain rfl : p = i := by simpa using h
    exact ⟨rfl, h1⟩
  · rw [if_neg h1] at h
    by_cases h2 : p = N <;> simp [h2] at h

/-- Peeling the final stone off a sow: the first `k-1` stones, then one stone
into the last slot. -/
lemma sow_last_step (N p k : Nat) (hk : 1 ≤ k) (hp : p < 2 * N + 1)
    (st : SinglePlayerBoardState × SinglePlayerBoardState) :
    sowStones N p k st =
      placeStone N ((p + (k - 1)) % (2 * N + 1)) (sowStones N p (k - 1) st) := by
  conv_lhs => rw [show k = (k - 1) + 1 from by omega]
  rw [sow_append N (k - 1) 1 p st hp]
  rfl

namespace SinglePlayerBoardState

/-- Pointwise effect of adding a stone to an in-range pit. -/
lemma getNumStonesInPit_addStone_self (s : SinglePlayerBoardState) (i : Nat)
    (h : i < s.getNumPits) :
    (s.addStoneToPit i).getNumStonesInPit i = s.getNumStonesInPit i + 1 := by
  unfold addStoneToPit getNumStonesInPit
  have hlen : i < s.pits.length := h
  simp [List.getD_eq_getElem?_getD, List.getElem?_set_self', hlen]

end SinglePlayerBoardState

/-- The active side of a reassembled board is its first component. -/
lemma activeSide_reassemble (player_index : Nat) (hp : player_index = 0 ∨ player_index = 1)
    (a o : SinglePlayerBoardState) :
    (BoardState.reassemble player_index a o).activeSide player_index = a := by
  rcases hp with h | h <;> subst h <;>
    simp [BoardState.reassemble, BoardState.activeSide]

/-- The opposing side of a reassembled board is its second component. -/
lemma opposingSide_reassemble (player_index : Nat) (hp : player_index = 0 ∨ player_index = 1)
    (a o : SinglePlayerBoardState) :
    (BoardState.reassemble player_index a o).opposingSide player_index = o := by
  rcases hp with h | h <;> subst h <;>
    simp [BoardState.reassemble, BoardState.opposingSide]

/-- Incrementing a counter at an in-range index, read back at that index. -/
lemma getD_inc_self (l : List Nat) (i : Nat) (h : i < l.length) :
    (l.set i (l.getD i 0 + 1)).getD i 0 = l.getD i 0 + 1 := by
  simp [List.getD_eq_getElem?_getD, List.getElem?_set_self', h]

/-- Setting one index leaves every other index's read unchanged. -/
lemma getD_set_other {α : Type} [Inhabited α] (l : List α) (i j : Nat) (v d : α) (h : j ≠ i) :
    (l.set i v).getD j d = l.getD j d := by
  simp [List.getD_eq_getElem?_getD, List.getElem?_set_ne (by omega : i ≠ j)]

/-!
## Claim theorems
-/

/-- C1: For every valid turn (player index in {0,1}, pit index in range,
source pit holding k > 0 stones, both sides of equal pit count as the
`BoardState` constructor guarantees), `TurnExecutor::playTurn` removes all k
stones from the source pit and distributes them one at a time in
counterclockwise order over the cycle of slots — the mover's own pits
starting at the next pit index, then the mover's bank, then every pit of the
opponent's side in order (the opponent's bank is never a slot), wrapping back
to the mover's own pits — exactly as the spec-side `specSowResult` describes;
and the returned `ended_in_bank` flag is true if and only if the last stone
is placed in the mover's bank. -/
theorem C1_playTurn_sows_counterclockwise
    (player_index pit_index : Nat) (bs : BoardState)
    (hp : player_index = 0 ∨ player_index = 1)
    (hpit : pit_index < bs.getNumPits)
    (hlen : bs.player1.getNumPits = bs.player0.getNumPits)
    (hk : 0 < (bs.activeSide player_index).getNumStonesInPit pit_index) :
    TurnExecutor.playTurn player_index pit_index bs =
      some
        ((specSowResult bs.getNumPits (pit_index + 1)
            ((bs.activeSide player_index).getNumStonesInPit pit_index).toNat
            ((bs.activeSide player_index).clearStonesFromPit pit_index)
            (bs.opposingSide player_index)).1,
          BoardState.reassemble player_index
            (specSowResult bs.getNumPits (pit_index + 1)
              ((bs.activeSide player_index).getNumStonesInPit pit_index).toNat
              ((bs.activeSide player_index).clearStonesFromPit pit_index)
              (bs.opposingSide player_index)).2.1
            (specSowResult bs.getNumPits (pit_index + 1)
              ((bs.activeSide player_index).getNumStonesInPit pit_index).toNat
              ((bs.activeSide player_index).clearStonesFromPit pit_index)
              (bs.opposingSide player_index)).2.2)
    ∧ ∀ (r : TurnResult) (bs' : BoardState),
        TurnExecutor.playTurn player_index pit_index bs = some (r, bs') →
        (r.ended_in_bank = true ↔
          lastSlot bs.getNumPits (pit_index + 1)
            ((bs.activeSide player_index).getNumStonesInPit pit_index).toNat =
            Slot.ownBank) := by
  have hmaster := playTurn_valid_spec player_index pit_index bs hp hpit hlen hk
  refine ⟨hmaster, ?_⟩
  intro r bs' h
  rw [hmaster] at h
  obtain ⟨rfl, -⟩ :
      (specSowResult bs.getNumPits (pit_index + 1)
        ((bs.activeSide player_index).getNumStonesInPit pit_index).toNat
        ((bs.activeSide player_index).clearStonesFromPit pit_index)
        (bs.opposingSide player_index)).1 = r ∧ _ = bs' := by
    simpa using h
  exact specSowResult_ended_iff _ _ _ _ _

/-- C1 witness: a concrete opening move (6 pits, 4 stones, player 0 plays
pit 2; the last stone lands in the bank). -/
theorem C1_witness :
    TurnExecutor.playTurn 0 2 ⟨⟨[4, 4, 4, 4, 4, 4], 0⟩, ⟨[4, 4, 4, 4, 4, 4], 0⟩⟩ =
      some (TurnResult.makeEndedInBankResult,
        ⟨⟨[4, 4, 0, 5, 5, 5], 1⟩, ⟨[4, 4, 4, 4, 4, 4], 0⟩⟩) := by
  have h := C1_playTurn_sows_counterclockwise 0 2
    ⟨⟨[4, 4, 4, 4, 4, 4], 0⟩, ⟨[4, 4, 4, 4, 4, 4], 0⟩⟩
    (Or.inl rfl) (by decide) (by decide) (by decide)
  rw [h.1]
  decide

/-- C7: For every input — any player index, any pit index, any board state —
the sowing of `TurnExecutor::playTurn` terminates and returns a `TurnResult`
from one of the two drop phases; the fatal internal-consistency
`std::logic_error` (modelled as `none`) is unreachable. -/
theorem C7_playTurn_never_throws (player_index pit_index : Nat) (bs : BoardState) :
    (TurnExecutor.playTurn player_index pit_index bs).isSome = true :=
  playTurn_isSome player_index pit_index bs

/-- C6: `TurnExecutor::playTurn` returns an invalid result if and only if the
player index is not 0 or 1, or the pit index is at least the number of pits,
or the source pit holds zero stones; every invalid case is reported as data
(a `TurnResult`, never an exception), and — given non-negative pit counts —
the board is left unmodified in net effect (the only mutation is clearing an
already-empty source pit). -/
theorem C6_invalid_characterisation (player_index pit_index : Nat) (bs : BoardState)
    (hnn0 : ∀ x ∈ bs.player0.pits, 0 ≤ x) (hnn1 : ∀ x ∈ bs.player1.pits, 0 ≤ x) :
    ∃ (r : TurnResult) (bs' : BoardState),
      TurnExecutor.playTurn player_index pit_index bs = some (r, bs') ∧
      (r.valid = false ↔
        (¬(player_index = 0 ∨ player_index = 1) ∨ bs.getNumPits ≤ pit_index ∨
          (bs.activeSide player_index).getNumStonesInPit pit_index = 0)) ∧
      (r.valid = false → bs' = bs) := by
  unfold TurnExecutor.playTurn
  by_cases h1 : player_index ≠ 0 ∧ player_index ≠ 1
  · refine ⟨TurnResult.makeInvalidResult, bs, by rw [if_pos h1], ?_, fun _ => rfl⟩
    simp only [TurnResult.makeInvalidResult, true_iff]
    tauto
  · rw [if_neg h1]
    have hp : player_index = 0 ∨ player_index = 1 := by
      by_cases hz : player_index = 0
      · exact Or.inl hz
      · exact Or.inr (by tauto)
    by_cases h2 : bs.getNumPits ≤ pit_index
    · rw [if_pos h2]
      refine ⟨TurnResult.makeInvalidResult, bs, rfl, ?_, fun _ => rfl⟩
      simp only [TurnResult.makeInvalidResult, true_iff]
      tauto
    · rw [if_neg h2]
      have hannA : ∀ x ∈ (bs.activeSide player_index).pits, 0 ≤ x := by
        rcases hp with hh | hh <;> subst hh <;>
          simpa [BoardState.activeSide] using (by assumption)
      by_cases h3 : (bs.activeSide player_index).getNumStonesInPit pit_index ≤ 0
      · rw [if_pos h3]
        have hz : (bs.activeSide player_index).getNumStonesInPit pit_index = 0 := by
          by_cases hin : pit_index < (bs.activeSide player_index).pits.length
          · have hmem : (bs.activeSide player_index).pits.getD pit_index 0 ∈
                (bs.activeSide player_index).pits := by
              rw [List.getD_eq_getElem _ _ hin]
              exact List.getElem_mem hin
            have := hannA _ hmem
            unfold SinglePlayerBoardState.getNumStonesInPit at h3 ⊢
            omega
          · unfold SinglePlayerBoardState.getNumStonesInPit
            rw [List.getD_eq_default _ _ (by omega)]
        refine ⟨TurnResult.makeInvalidResult, _, rfl, ?_, fun _ => ?_⟩
        · simp only [TurnResult.makeInvalidResult, true_iff]
          tauto
        · have hclr : (bs.activeSide player_index).clearStonesFromPit pit_index =
              bs.activeSide player_index := by
            unfold SinglePlayerBoardState.clearStonesFromPit
            have := set_zero_of_getD_zero (bs.activeSide player_index).pits pit_index hz
            rw [this]
          rw [hclr, reassemble_sides player_index hp bs]
      · rw [if_neg h3]
        rcases hda : TurnExecutor.dropStonesOnActivePlayerBoard
            ((bs.activeSide player_index).clearStonesFromPit pit_index)
            (bs.opposingSide player_index) (pit_index + 1)
            ((bs.activeSide player_index).getNumStonesInPit pit_index).toNat
          with ⟨r₁, a', o', n'⟩
        rcases r₁ with _ | r₁
        · have hb := dropActive_none_bound _ _ _ _ (by rw [hda])
          rw [hda] at hb
          simp only at hb
          have hsome := sowLoop_isSome n' n' a' o' (by omega) le_rfl
          rcases hsl : TurnExecutor.sowLoop n' a' o' n' with _ | ⟨r₂, a'', o''⟩
          · rw [hsl] at hsome
            simp at hsome
          · have hvalid := sowLoop_some_valid n' n' a' o' a'' o'' r₂ hsl
            refine ⟨r₂, BoardState.reassemble player_index a'' o'', by simp [hsl], ?_,
              fun hcontra => by rw [hvalid] at hcontra; simp at hcontra⟩
            rw [hvalid]
            simp only [Bool.true_eq_false, false_iff]
            push_neg
            exact ⟨hp, by omega, by omega⟩
        · have hvalid := dropActive_some_valid _ _ _ _ r₁ (by rw [hda])
          refine ⟨r₁, BoardState.reassemble player_index a' o', by simp, ?_,
            fun hcontra => by rw [hvalid] at hcontra; simp at hcontra⟩
          rw [hvalid]
          simp only [Bool.true_eq_false, false_iff]
          push_neg
          exact ⟨hp, by omega, by omega⟩

/-- C6 witness: Scenario A — player 0's pit 0 is empty, the move is rejected
as data and the board is unchanged. -/
theorem C6_witness :
    ∃ (r : TurnResult) (bs' : BoardState),
      TurnExecutor.playTurn 0 0 ⟨⟨[0, 1], 0⟩, ⟨[1, 1], 0⟩⟩ = some (r, bs') ∧
      (r.valid = false ↔
        (¬((0 : Nat) = 0 ∨ (0 : Nat) = 1) ∨
          (BoardState.mk ⟨[0, 1], 0⟩ ⟨[1, 1], 0⟩).getNumPits ≤ 0 ∨
          ((BoardState.mk ⟨[0, 1], 0⟩ ⟨[1, 1], 0⟩).activeSide 0).getNumStonesInPit 0 = 0)) ∧
      (r.valid = false → bs' = ⟨⟨[0, 1], 0⟩, ⟨[1, 1], 0⟩⟩) :=
  C6_invalid_characterisation 0 0 ⟨⟨[0, 1], 0⟩, ⟨[1, 1], 0⟩⟩ (by decide) (by decide)

/-- C4: For every board state with non-negative pit and bank counts, the total
stone count (both sides' pits plus both banks) is unchanged by every call to
`TurnExecutor::playTurn` (valid or invalid, capture path included) and by
every call to `GameMechanicsExecutor::getWinnerPlayerIndex` (end-of-game
sweep included): the total is a global invariant of a position. -/
theorem C4_total_stones_invariant :
    (∀ (player_index pit_index : Nat) (bs : BoardState) (r : TurnResult) (bs' : BoardState),
      (∀ x ∈ bs.player0.pits, 0 ≤ x) → (∀ x ∈ bs.player1.pits, 0 ≤ x) →
      0 ≤ bs.player0.bank → 0 ≤ bs.player1.bank →
      TurnExecutor.playTurn player_index pit_index bs = some (r, bs') →
      bs'.totalStones = bs.totalStones)
    ∧ (∀ bs : BoardState,
      ((GameMechanicsExecutor.getWinnerPlayerIndex bs).2).totalStones = bs.totalStones) :=
  ⟨fun player_index pit_index bs r bs' hnn0 hnn1 _ _ h =>
      playTurn_total player_index pit_index bs r bs' hnn0 hnn1 h,
    GameMechanicsExecutor.getWinnerPlayerIndex_total⟩

/-- C4 witness: conservation through a concrete capturing turn and through a
concrete end-of-game sweep. -/
theorem C4_witness :
    BoardState.totalStones ⟨⟨[0, 0], 2⟩, ⟨[0, 1], 0⟩⟩ =
      BoardState.totalStones ⟨⟨[1, 0], 0⟩, ⟨[1, 1], 0⟩⟩ ∧
    ((GameMechanicsExecutor.getWinnerPlayerIndex ⟨⟨[0, 0], 5⟩, ⟨[2, 3], 1⟩⟩).2).totalStones =
      BoardState.totalStones ⟨⟨[0, 0], 5⟩, ⟨[2, 3], 1⟩⟩ :=
  ⟨C4_total_stones_invariant.1 0 0 ⟨⟨[1, 0], 0⟩, ⟨[1, 1], 0⟩⟩
      TurnResult.makeNotEndedInBankResult ⟨⟨[0, 0], 2⟩, ⟨[0, 1], 0⟩⟩
      (by decide) (by decide) (by decide) (by decide) (by decide),
    C4_total_stones_invariant.2 ⟨⟨[0, 0], 5⟩, ⟨[2, 3], 1⟩⟩⟩

/-- C5: `isGameFinished` returns true iff all pits on at least one side are
simultaneously zero; `getWinnerPlayerIndex` returns no value and leaves the
board unchanged exactly when the game is not finished; when finished, it adds
each side's remaining pit sum to that side's own bank, zeroes all pits on both
sides, and returns the index of the player with the strictly greater bank, or
the sentinel value 2 when the banks are equal. -/
theorem C5_finish_and_winner (bs : BoardState) :
    (GameMechanicsExecutor.isGameFinished bs = true ↔
      (∀ x ∈ bs.player0.pits, x = 0) ∨ (∀ x ∈ bs.player1.pits, x = 0))
    ∧ ((GameMechanicsExecutor.getWinnerPlayerIndex bs).1 = none ↔
      GameMechanicsExecutor.isGameFinished bs = false)
    ∧ (GameMechanicsExecutor.isGameFinished bs = false →
      (GameMechanicsExecutor.getWinnerPlayerIndex bs).2 = bs)
    ∧ (GameMechanicsExecutor.isGameFinished bs = true →
      ((GameMechanicsExecutor.getWinnerPlayerIndex bs).2).player0.getNumStonesInBank =
        bs.player0.getNumStonesInBank + bs.player0.sumOfStonesInPits ∧
      ((GameMechanicsExecutor.getWinnerPlayerIndex bs).2).player1.getNumStonesInBank =
        bs.player1.getNumStonesInBank + bs.player1.sumOfStonesInPits ∧
      (∀ j, ((GameMechanicsExecutor.getWinnerPlayerIndex bs).2).player0.getNumStonesInPit j = 0) ∧
      (∀ j, ((GameMechanicsExecutor.getWinnerPlayerIndex bs).2).player1.getNumStonesInPit j = 0) ∧
      (GameMechanicsExecutor.getWinnerPlayerIndex bs).1 =
        some (if bs.player1.getNumStonesInBank + bs.player1.sumOfStonesInPits <
                 bs.player0.getNumStonesInBank + bs.player0.sumOfStonesInPits then 0
              else if bs.player0.getNumStonesInBank + bs.player0.sumOfStonesInPits <
                 bs.player1.getNumStonesInBank + bs.player1.sumOfStonesInPits then 1
              else 2)) := by
  refine ⟨GameMechanicsExecutor.isGameFinished_iff bs, ?_, ?_, ?_⟩
  · by_cases hf : GameMechanicsExecutor.isGameFinished bs = false
    · unfold GameMechanicsExecutor.getWinnerPlayerIndex
      rw [if_pos hf]
      simp [hf]
    · have hf' : GameMechanicsExecutor.isGameFinished bs = true := by
        rcases Bool.eq_false_or_eq_true (GameMechanicsExecutor.isGameFinished bs) with h | h
        · exact h
        · exact absurd h hf
      rw [getWinner_finished bs hf']
      simp [hf']
  · intro hf
    unfold GameMechanicsExecutor.getWinnerPlayerIndex
    rw [if_pos hf]
  · intro hf
    rw [getWinner_finished bs hf]
    simp only [SinglePlayerBoardState.getNumStonesInBank]
    refine ⟨GameMechanicsExecutor.sweepSide_bank bs.player0,
      GameMechanicsExecutor.sweepSide_bank bs.player1,
      GameMechanicsExecutor.sweepSide_pits bs.player0,
      GameMechanicsExecutor.sweepSide_pits bs.player1, ?_⟩
    rw [GameMechanicsExecutor.sweepSide_bank bs.player0,
      GameMechanicsExecutor.sweepSide_bank bs.player1]

/-- C5 witness: a finished position (player 0's side empty); the sweep and
the winner comparison evaluated concretely. -/
theorem C5_witness :
    ((GameMechanicsExecutor.getWinnerPlayerIndex ⟨⟨[0, 0], 3⟩, ⟨[2, 1], 1⟩⟩).2).player0.getNumStonesInBank =
      (BoardState.player0 ⟨⟨[0, 0], 3⟩, ⟨[2, 1], 1⟩⟩).getNumStonesInBank + (BoardState.player0 ⟨⟨[0, 0], 3⟩, ⟨[2, 1], 1⟩⟩).sumOfStonesInPits ∧
    ((GameMechanicsExecutor.getWinnerPlayerIndex ⟨⟨[0, 0], 3⟩, ⟨[2, 1], 1⟩⟩).2).player1.getNumStonesInBank =
      (BoardState.player1 ⟨⟨[0, 0], 3⟩, ⟨[2, 1], 1⟩⟩).getNumStonesInBank + (BoardState.player1 ⟨⟨[0, 0], 3⟩, ⟨[2, 1], 1⟩⟩).sumOfStonesInPits ∧
    (∀ j, ((GameMechanicsExecutor.getWinnerPlayerIndex ⟨⟨[0, 0], 3⟩, ⟨[2, 1], 1⟩⟩).2).player0.getNumStonesInPit j = 0) ∧
    (∀ j, ((GameMechanicsExecutor.getWinnerPlayerIndex ⟨⟨[0, 0], 3⟩, ⟨[2, 1], 1⟩⟩).2).player1.getNumStonesInPit j = 0) ∧
    (GameMechanicsExecutor.getWinnerPlayerIndex ⟨⟨[0, 0], 3⟩, ⟨[2, 1], 1⟩⟩).1 =
      some (if (BoardState.player1 ⟨⟨[0, 0], 3⟩, ⟨[2, 1], 1⟩⟩).getNumStonesInBank + (BoardState.player1 ⟨⟨[0, 0], 3⟩, ⟨[2, 1], 1⟩⟩).sumOfStonesInPits <
               (BoardState.player0 ⟨⟨[0, 0], 3⟩, ⟨[2, 1], 1⟩⟩).getNumStonesInBank + (BoardState.player0 ⟨⟨[0, 0], 3⟩, ⟨[2, 1], 1⟩⟩).sumOfStonesInPits then 0
            else if (BoardState.player0 ⟨⟨[0, 0], 3⟩, ⟨[2, 1], 1⟩⟩).getNumStonesInBank + (BoardState.player0 ⟨⟨[0, 0], 3⟩, ⟨[2, 1], 1⟩⟩).sumOfStonesInPits <
               (BoardState.player1 ⟨⟨[0, 0], 3⟩, ⟨[2, 1], 1⟩⟩).getNumStonesInBank + (BoardState.player1 ⟨⟨[0, 0], 3⟩, ⟨[2, 1], 1⟩⟩).sumOfStonesInPits then 1
            else 2) :=
  (C5_finish_and_winner ⟨⟨[0, 0], 3⟩, ⟨[2, 1], 1⟩⟩).2.2.2 (by decide)

/-- C2: For every valid turn whose last sown stone lands in a pit `i` on the
mover's own side: if that pit contained exactly zero stones immediately before
receiving that last stone and the mirrored opposing pit at index `N-1-i`
contained `Q > 0` stones, then the mover's bank increases by `1+Q` over its
pre-last-stone value and both the landing pit and the opposing pit are set to
zero; in every case where the last stone does not land in the mover's bank
(own pit or opponent pit, capture or not) the result is `ended_in_bank =
false`; and if the landing pit held one or more stones before the last
placement or the opposing pit holds zero, no capture occurs (the final board
is exactly the sown board). -/
theorem C2_capture_rule (player_index pit_index : Nat) (bs : BoardState)
    (hp : player_index = 0 ∨ player_index = 1)
    (hpit : pit_index < bs.getNumPits)
    (hlen : bs.player1.getNumPits = bs.player0.getNumPits)
    (hk : 0 < (bs.activeSide player_index).getNumStonesInPit pit_index) :
    (∀ i, lastSlot bs.getNumPits (pit_index + 1)
          ((bs.activeSide player_index).getNumStonesInPit pit_index).toNat = Slot.ownPit i →
        ∃ bs', TurnExecutor.playTurn player_index pit_index bs =
            some (TurnResult.makeNotEndedInBankResult, bs') ∧
          ((preLastState bs.getNumPits (pit_index + 1)
                ((bs.activeSide player_index).getNumStonesInPit pit_index).toNat
                ((bs.activeSide player_index).clearStonesFromPit pit_index)
                (bs.opposingSide player_index)).1.getNumStonesInPit i = 0 ∧
              0 < (preLastState bs.getNumPits (pit_index + 1)
                ((bs.activeSide player_index).getNumStonesInPit pit_index).toNat
                ((bs.activeSide player_index).clearStonesFromPit pit_index)
                (bs.opposingSide player_index)).2.getNumStonesInPit (bs.getNumPits - 1 - i) →
            (bs'.activeSide player_index).getNumStonesInBank =
                (preLastState bs.getNumPits (pit_index + 1)
                  ((bs.activeSide player_index).getNumStonesInPit pit_index).toNat
                  ((bs.activeSide player_index).clearStonesFromPit pit_index)
                  (bs.opposingSide player_index)).1.getNumStonesInBank +
                (1 + (preLastState bs.getNumPits (pit_index + 1)
                  ((bs.activeSide player_index).getNumStonesInPit pit_index).toNat
                  ((bs.activeSide player_index).clearStonesFromPit pit_index)
                  (bs.opposingSide player_index)).2.getNumStonesInPit (bs.getNumPits - 1 - i)) ∧
            (bs'.activeSide player_index).getNumStonesInPit i = 0 ∧
            (bs'.opposingSide player_index).getNumStonesInPit (bs.getNumPits - 1 - i) = 0) ∧
          (¬ ((preLastState bs.getNumPits (pit_index + 1)
                ((bs.activeSide player_index).getNumStonesInPit pit_index).toNat
                ((bs.activeSide player_index).clearStonesFromPit pit_index)
                (bs.opposingSide player_index)).1.getNumStonesInPit i = 0 ∧
              0 < (preLastState bs.getNumPits (pit_index + 1)
                ((bs.activeSide player_index).getNumStonesInPit pit_index).toNat
                ((bs.activeSide player_index).clearStonesFromPit pit_index)
                (bs.opposingSide player_index)).2.getNumStonesInPit (bs.getNumPits - 1 - i)) →
            bs'.activeSide player_index =
                (preLastState bs.getNumPits (pit_index + 1)
                  ((bs.activeSide player_index).getNumStonesInPit pit_index).toNat
                  ((bs.activeSide player_index).clearStonesFromPit pit_index)
                  (bs.opposingSide player_index)).1.addStoneToPit i ∧
            bs'.opposingSide player_index =
                (preLastState bs.getNumPits (pit_index + 1)
                  ((bs.activeSide player_index).getNumStonesInPit pit_index).toNat
                  ((bs.activeSide player_index).clearStonesFromPit pit_index)
                  (bs.opposingSide player_index)).2))
    ∧ (∀ i, lastSlot bs.getNumPits (pit_index + 1)
          ((bs.activeSide player_index).getNumStonesInPit pit_index).toNat = Slot.oppPit i →
        ∃ bs', TurnExecutor.playTurn player_index pit_index bs =
            some (TurnResult.makeNotEndedInBankResult, bs')) := by
  have hNpos : 1 ≤ bs.getNumPits := by omega
  have hspec := playTurn_valid_spec player_index pit_index bs hp hpit hlen hk
  set k := ((bs.activeSide player_index).getNumStonesInPit pit_index).toNat with hkdef
  set a := (bs.activeSide player_index).clearStonesFromPit pit_index with hadef
  set o := bs.opposingSide player_index with hodef
  have haN : a.getNumPits = bs.getNumPits := by
    rw [hadef]
    rcases hp with h | h <;> subst h <;>
      simp [BoardState.activeSide, BoardState.getNumPits, hlen]
  have hoN : o.getNumPits = bs.getNumPits := by
    rw [hodef]
    rcases hp with h | h <;> subst h <;>
      simp [BoardState.opposingSide, BoardState.getNumPits, hlen]
  have hk1 : 1 ≤ k := by rw [hkdef]; omega
  simp only [preLastState]
  constructor
  · intro i hlast
    simp only [specSowResult, hlast] at hspec
    have hpos : slotOfPos bs.getNumPits
        ((pit_index + 1 + (k - 1)) % (2 * bs.getNumPits + 1)) = Slot.ownPit i := hlast
    have hiN : i < bs.getNumPits := (slotOfPos_ownPit _ _ _ hpos).2
    have hsplit := sow_last_step bs.getNumPits (pit_index + 1) k hk1 (by omega) (a, o)
    simp only [placeStone, hpos] at hsplit
    have hpre1N :
        (sowStones bs.getNumPits (pit_index + 1) (k - 1) (a, o)).1.getNumPits =
          bs.getNumPits := by
      rw [(sowStones_getNumPits bs.getNumPits (k - 1) (pit_index + 1) (a, o)).1]
      exact haN
    have hpre2N :
        (sowStones bs.getNumPits (pit_index + 1) (k - 1) (a, o)).2.getNumPits =
          bs.getNumPits := by
      rw [(sowStones_getNumPits bs.getNumPits (k - 1) (pit_index + 1) (a, o)).2]
      exact hoN
    have hst1 :
        (sowStones bs.getNumPits (pit_index + 1) k (a, o)).1.getNumStonesInPit i =
          (sowStones bs.getNumPits (pit_index + 1) (k - 1) (a, o)).1.getNumStonesInPit i + 1 := by
      rw [hsplit]
      exact SinglePlayerBoardState.getNumStonesInPit_addStone_self _ i (by rw [hpre1N]; exact hiN)
    have hst2 :
        (sowStones bs.getNumPits (pit_index + 1) k (a, o)).2 =
          (sowStones bs.getNumPits (pit_index + 1) (k - 1) (a, o)).2 := by
      rw [hsplit]
    simp only [TurnExecutor.captureCheckFn, hst2, hpre2N,
      show bs.getNumPits - i - 1 = bs.getNumPits - 1 - i from by omega] at hspec
    by_cases hcond :
        (sowStones bs.getNumPits (pit_index + 1) k (a, o)).1.getNumStonesInPit i = 1 ∧
        0 < (sowStones bs.getNumPits (pit_index + 1) (k - 1) (a, o)).2.getNumStonesInPit
          (bs.getNumPits - 1 - i)
    · simp only [if_pos hcond] at hspec
      refine ⟨_, hspec, ?_, ?_⟩
      · intro hclaim
        obtain ⟨h0, hQ⟩ := hclaim
        rw [activeSide_reassemble player_index hp, opposingSide_reassemble player_index hp]
        refine ⟨?_, ?_, ?_⟩
        · rw [hsplit]
          simp [SinglePlayerBoardState.getNumStonesInBank]
        · simp [SinglePlayerBoardState.getNumStonesInPit_clear]
        · simp [SinglePlayerBoardState.getNumStonesInPit_clear]
      · intro hclaim
        have h0 :
            (sowStones bs.getNumPits (pit_index + 1) (k - 1) (a, o)).1.getNumStonesInPit i
              = 0 := by
          have h1 := hcond.1
          rw [hst1] at h1
          omega
        exact absurd ⟨h0, hcond.2⟩ hclaim
    · simp only [if_neg hcond] at hspec
      refine ⟨_, hspec, ?_, ?_⟩
      · intro hclaim
        obtain ⟨h0, hQ⟩ := hclaim
        exact absurd ⟨by rw [hst1]; omega, hQ⟩ hcond
      · intro _
        rw [activeSide_reassemble player_index hp, opposingSide_reassemble player_index hp]
        exact ⟨by rw [hsplit], rfl⟩
  · intro i hlast
    simp only [specSowResult, hlast] at hspec
    exact ⟨_, hspec⟩

/-- C2 witness: a concrete capturing turn — one stone sown into an empty own
pit whose mirror pit is occupied. -/
theorem C2_witness :
    ∃ bs', TurnExecutor.playTurn 0 0 ⟨⟨[1, 0], 0⟩, ⟨[1, 1], 0⟩⟩ =
        some (TurnResult.makeNotEndedInBankResult, bs') ∧
      ((preLastState 2 1 1 ⟨[0, 0], 0⟩ ⟨[1, 1], 0⟩).1.getNumStonesInPit 1 = 0 ∧
          0 < (preLastState 2 1 1 ⟨[0, 0], 0⟩ ⟨[1, 1], 0⟩).2.getNumStonesInPit (2 - 1 - 1) →
        (bs'.activeSide 0).getNumStonesInBank =
            (preLastState 2 1 1 ⟨[0, 0], 0⟩ ⟨[1, 1], 0⟩).1.getNumStonesInBank +
            (1 + (preLastState 2 1 1 ⟨[0, 0], 0⟩ ⟨[1, 1], 0⟩).2.getNumStonesInPit (2 - 1 - 1)) ∧
        (bs'.activeSide 0).getNumStonesInPit 1 = 0 ∧
        (bs'.opposingSide 0).getNumStonesInPit (2 - 1 - 1) = 0) ∧
      (¬ ((preLastState 2 1 1 ⟨[0, 0], 0⟩ ⟨[1, 1], 0⟩).1.getNumStonesInPit 1 = 0 ∧
          0 < (preLastState 2 1 1 ⟨[0, 0], 0⟩ ⟨[1, 1], 0⟩).2.getNumStonesInPit (2 - 1 - 1)) →
        bs'.activeSide 0 = (preLastState 2 1 1 ⟨[0, 0], 0⟩ ⟨[1, 1], 0⟩).1.addStoneToPit 1 ∧
        bs'.opposingSide 0 = (preLastState 2 1 1 ⟨[0, 0], 0⟩ ⟨[1, 1], 0⟩).2) := by
  exact (C2_capture_rule 0 0 ⟨⟨[1, 0], 0⟩, ⟨[1, 1], 0⟩⟩ (Or.inl rfl) (by decide) (by decide)
    (by decide)).1 1 (by decide)

/-- C9 counterexample: the claim says a 1-stone sow "never triggers capture
or bank-ending unless the next slot is the mover's bank", but sowing one
stone into an empty own pit whose mirror pit is occupied DOES trigger the
capture: player 0 sows the single stone of pit 1 into pit 2 (not the bank)
and the bank still gains stones (the capture fires). -/
theorem C9_counterexample :
    (BoardState.player0 ⟨⟨[0, 1, 0], 0⟩, ⟨[1, 1, 1], 0⟩⟩).getNumStonesInPit 1 = 1 ∧
    lastSlot (BoardState.getNumPits ⟨⟨[0, 1, 0], 0⟩, ⟨[1, 1, 1], 0⟩⟩) (1 + 1) 1 ≠
      Slot.ownBank ∧
    TurnExecutor.playTurn 0 1 ⟨⟨[0, 1, 0], 0⟩, ⟨[1, 1, 1], 1⟩⟩ =
      some (TurnResult.makeNotEndedInBankResult, ⟨⟨[0, 0, 0], 2⟩, ⟨[0, 1, 1], 1⟩⟩) ∧
    (BoardState.player0 ⟨⟨[0, 0, 0], 2⟩, ⟨[0, 1, 1], 1⟩⟩).getNumStonesInBank ≠
      (BoardState.player0 ⟨⟨[0, 1, 0], 0⟩, ⟨[1, 1, 1], 1⟩⟩).getNumStonesInBank := by
  decide

/-- C9 (amended): for every valid turn sowing exactly 1 stone, the stone
lands in the next slot: if the next slot is an own pit (`pit_index + 1 < N`)
the result is not ended-in-bank and the capture check IS run on that landing
pit (so a capture can fire there); if the next slot is the mover's bank
(`pit_index + 1 = N`) the stone goes to the bank and the turn ends in bank. -/
theorem C9_one_stone_sow (player_index pit_index : Nat) (bs : BoardState)
    (hp : player_index = 0 ∨ player_index = 1)
    (hpit : pit_index < bs.getNumPits)
    (hlen : bs.player1.getNumPits = bs.player0.getNumPits)
    (hk1 : (bs.activeSide player_index).getNumStonesInPit pit_index = 1) :
    (pit_index + 1 < bs.getNumPits →
      TurnExecutor.playTurn player_index pit_index bs =
        some (TurnResult.makeNotEndedInBankResult,
          BoardState.reassemble player_index
            (TurnExecutor.captureCheckFn
              (((bs.activeSide player_index).clearStonesFromPit pit_index).addStoneToPit
                (pit_index + 1))
              (bs.opposingSide player_index) (pit_index + 1)).1
            (TurnExecutor.captureCheckFn
              (((bs.activeSide player_index).clearStonesFromPit pit_index).addStoneToPit
                (pit_index + 1))
              (bs.opposingSide player_index) (pit_index + 1)).2))
    ∧ (pit_index + 1 = bs.getNumPits →
      TurnExecutor.playTurn player_index pit_index bs =
        some (TurnResult.makeEndedInBankResult,
          BoardState.reassemble player_index
            (((bs.activeSide player_index).clearStonesFromPit pit_index).addStonesToBank 1)
            (bs.opposingSide player_index))) := by
  have hk : 0 < (bs.activeSide player_index).getNumStonesInPit pit_index := by
    rw [hk1]; exact Int.one_pos
  have hspec := playTurn_valid_spec player_index pit_index bs hp hpit hlen hk
  have ht : ((bs.activeSide player_index).getNumStonesInPit pit_index).toNat = 1 := by
    rw [hk1]; rfl
  rw [ht] at hspec
  constructor
  · intro hlt
    have hse := specSowResult_ownEnd bs.getNumPits pit_index 1 (by omega) (by omega) (by omega)
      ((bs.activeSide player_index).clearStonesFromPit pit_index)
      (bs.opposingSide player_index)
    rw [hspec, hse]
    rfl
  · intro heq
    have hsb := specSowResult_ownBank bs.getNumPits pit_index (by omega)
      ((bs.activeSide player_index).clearStonesFromPit pit_index)
      (bs.opposingSide player_index)
    rw [show bs.getNumPits - pit_index = 1 from by omega,
      show bs.getNumPits - (pit_index + 1) = 0 from by omega] at hsb
    rw [hspec, hsb]
    rfl

/-- C9 witness: both one-stone outcomes on a concrete 2-pit board — landing
in the next own pit (capture check run, here without capture) and landing
exactly in the bank. -/
theorem C9_witness :
    TurnExecutor.playTurn 0 0 ⟨⟨[1, 1], 0⟩, ⟨[1, 1], 0⟩⟩ =
      some (TurnResult.makeNotEndedInBankResult,
        BoardState.reassemble 0
          (TurnExecutor.captureCheckFn
            (SinglePlayerBoardState.addStoneToPit ⟨[0, 1], 0⟩ 1) ⟨[1, 1], 0⟩ 1).1
          (TurnExecutor.captureCheckFn
            (SinglePlayerBoardState.addStoneToPit ⟨[0, 1], 0⟩ 1) ⟨[1, 1], 0⟩ 1).2) ∧
    TurnExecutor.playTurn 0 1 ⟨⟨[1, 1], 0⟩, ⟨[1, 1], 0⟩⟩ =
      some (TurnResult.makeEndedInBankResult,
        BoardState.reassemble 0
          (SinglePlayerBoardState.addStonesToBank ⟨[1, 0], 0⟩ 1) ⟨[1, 1], 0⟩) :=
  ⟨(C9_one_stone_sow 0 0 ⟨⟨[1, 1], 0⟩, ⟨[1, 1], 0⟩⟩ (Or.inl rfl) (by decide) (by decide)
      (by decide)).1 (by decide),
    (C9_one_stone_sow 0 1 ⟨⟨[1, 1], 0⟩, ⟨[1, 1], 0⟩⟩ (Or.inl rfl) (by decide) (by decide)
      (by decide)).2 (by decide)⟩

/-- C3: `Solver::solve` scans root pits in increasing order; a `(i, true)`
return means pit `i` is the first pit whose verdict (valid move immediately
ending the game with the root's original active player as winner, or a forced
win reported by `solveInner`) is positive — every earlier pit's verdict was
negative, so no further root branch was explored past `i`; a `(i, false)`
return means every root pit's verdict was negative and `i` is the fallback
choice: the first pit attaining the strictly-positive maximum
winning-to-total ratio (a pit with no observed branches never beats one with
a positive ratio, and ties favour the first-seen index since the comparison
is strict), or index 0 when no pit has a positive ratio. -/
theorem C3_solve_root_and_fallback (fuel : Nat) (bs : BoardState) (gme : GameMechanicsExecutor) :
    (∀ i, Solver.solve fuel bs gme = some (i, true) →
      i < bs.getNumPits ∧
      Solver.rootShortCircuit fuel bs gme gme.active_player_index i = some true ∧
      ∀ j, j < i → Solver.rootShortCircuit fuel bs gme gme.active_player_index j = some false)
    ∧ (∀ i, Solver.solve fuel bs gme = some (i, false) →
      (∀ j, j < bs.getNumPits →
        Solver.rootShortCircuit fuel bs gme gme.active_player_index j = some false) ∧
      ∃ st : SolverState,
        Solver.solveRootLoop fuel bs gme gme.active_player_index 0 bs.getNumPits
          ⟨List.replicate bs.getNumPits 0, List.replicate bs.getNumPits 0,
            List.replicate bs.getNumPits 0⟩ = some (none, st) ∧
        Solver.IsFallbackChoice bs.getNumPits st.num_winning_branches st.num_total_branches i) := by
  have hchar := Solver.solveRootLoop_char fuel bs gme gme.active_player_index bs.getNumPits 0
    ⟨List.replicate bs.getNumPits 0, List.replicate bs.getNumPits 0,
      List.replicate bs.getNumPits 0⟩
  rcases hroot : Solver.solveRootLoop fuel bs gme gme.active_player_index 0 bs.getNumPits
      ⟨List.replicate bs.getNumPits 0, List.replicate bs.getNumPits 0,
        List.replicate bs.getNumPits 0⟩ with _ | ⟨p?, st⟩
  · constructor
    · intro i h
      simp only [Solver.solve, hroot] at h
      simp at h
    · intro i h
      simp only [Solver.solve, hroot] at h
      simp at h
  · rcases p? with _ | p
    · constructor
      · intro i h
        simp only [Solver.solve, hroot] at h
        simp at h
      · intro i h
        simp only [Solver.solve, hroot] at h
        obtain ⟨rfl, -⟩ : Solver.fallbackLoop st.num_winning_branches st.num_total_branches 0
            bs.getNumPits 0 0 = i ∧ False = False := by simpa using h
        refine ⟨fun j hj => hchar.2 st hroot j (by omega) (by omega), st, rfl, ?_⟩
        exact Solver.fallbackLoop_isChoice st.num_winning_branches st.num_total_branches
          bs.getNumPits
    · constructor
      · intro i h
        simp only [Solver.solve, hroot] at h
        obtain ⟨rfl, -⟩ : p = i ∧ True = True := by simpa using h
        obtain ⟨h1, h2, h3, h4⟩ := hchar.1 p st hroot
        exact ⟨by omega, h3, fun j hj => h4 j (by omega) hj⟩
      · intro i h
        simp only [Solver.solve, hroot] at h
        simp at h

/-- C3 witness: a position where pit 1 immediately empties player 0's side
and wins (Scenario B) — `solve` short-circuits at the first positive pit. -/
theorem C3_witness :
    1 < BoardState.getNumPits ⟨⟨[0, 1], 2⟩, ⟨[1, 1], 0⟩⟩ ∧
    Solver.rootShortCircuit 10 ⟨⟨[0, 1], 2⟩, ⟨[1, 1], 0⟩⟩ ⟨0⟩ 0 1 = some true ∧
    ∀ j, j < 1 → Solver.rootShortCircuit 10 ⟨⟨[0, 1], 2⟩, ⟨[1, 1], 0⟩⟩ ⟨0⟩ 0 j = some false :=
  (C3_solve_root_and_fallback 10 ⟨⟨[0, 1], 2⟩, ⟨[1, 1], 0⟩⟩ ⟨0⟩).1 1 (by decide)

/-- C8 counterexample: a terminal position whose winner is the root's
original player, observed while the OPPONENT is the mover, bumps the total
branch counter TWICE (solver.h line 100 and line 120), not "exactly one":
here a single winning terminal branch takes the total counter from 0 to 2
(the winning counter correctly goes to 1). -/
theorem C8_counterexample :
    Solver.solveInner 3 ⟨⟨[2], 0⟩, ⟨[1], 0⟩⟩ ⟨1⟩ 0 0 ⟨[0], [0], [0]⟩ =
      some (true, ⟨[1], [0], [2]⟩) ∧
    (SolverState.mk [1] [0] [2]).num_winning_branches.getD 0 0 =
      (SolverState.mk [0] [0] [0]).num_winning_branches.getD 0 0 + 1 ∧
    (SolverState.mk [1] [0] [2]).num_total_branches.getD 0 0 ≠
      (SolverState.mk [0] [0] [0]).num_total_branches.getD 0 0 + 1 := by decide

/-- C8 (amended): in the terminal block of `Solver::solveInner` (counters
indexed by the root pit `ip`), a terminal winner equal to the root's original
player increments the winning counter by exactly one, and returns forced-win
immediately only when the mover at that step is the root player — in that
early-return case the total counter is incremented exactly once, but when the
mover is the opponent there is no early return and the total counter is
incremented twice (once inside the winner branch, once by the unconditional
end-of-iteration increment); a terminal tie increments the drawn counter and
the total counter each by exactly one with no early return. -/
theorem C8_terminal_counters (winner ia iop ae ip : Nat) (st : SolverState)
    (hw : ip < st.num_winning_branches.length)
    (hd : ip < st.num_drawn_branches.length)
    (ht : ip < st.num_total_branches.length) :
    (winner = ia → ae = ia →
      (Solver.solveInnerTerminalCase winner ia iop ae ip st).1 = some true ∧
      (Solver.solveInnerTerminalCase winner ia iop ae ip st).2.num_winning_branches.getD ip 0 =
        st.num_winning_branches.getD ip 0 + 1 ∧
      (Solver.solveInnerTerminalCase winner ia iop ae ip st).2.num_total_branches.getD ip 0 =
        st.num_total_branches.getD ip 0 + 1)
    ∧ (winner = ia → ae ≠ ia →
      (Solver.solveInnerTerminalCase winner ia iop ae ip st).1 = none ∧
      (Solver.solveInnerTerminalCase winner ia iop ae ip st).2.num_winning_branches.getD ip 0 =
        st.num_winning_branches.getD ip 0 + 1 ∧
      (Solver.solveInnerTerminalCase winner ia iop ae ip st).2.num_total_branches.getD ip 0 =
        st.num_total_branches.getD ip 0 + 2)
    ∧ (winner ≠ ia → winner ≠ iop →
      (Solver.solveInnerTerminalCase winner ia iop ae ip st).1 = none ∧
      (Solver.solveInnerTerminalCase winner ia iop ae ip st).2.num_drawn_branches.getD ip 0 =
        st.num_drawn_branches.getD ip 0 + 1 ∧
      (Solver.solveInnerTerminalCase winner ia iop ae ip st).2.num_total_branches.getD ip 0 =
        st.num_total_branches.getD ip 0 + 1) := by
  refine ⟨?_, ?_, ?_⟩
  · intro h1 h2
    simp only [Solver.solveInnerTerminalCase, if_pos h1, if_pos h2]
    refine ⟨trivial, ?_, ?_⟩
    · simp only [SolverState.incWinning, SolverState.incTotal]
      exact getD_inc_self _ ip hw
    · simp only [SolverState.incWinning, SolverState.incTotal]
      exact getD_inc_self _ ip ht
  · intro h1 h2
    simp only [Solver.solveInnerTerminalCase, if_pos h1, if_neg h2]
    refine ⟨trivial, ?_, ?_⟩
    · simp only [SolverState.incWinning, SolverState.incTotal]
      exact getD_inc_self _ ip hw
    · simp only [SolverState.incWinning, SolverState.incTotal]
      rw [getD_inc_self _ ip (by simpa using ht), getD_inc_self _ ip ht]
  · intro h1 h2
    simp only [Solver.solveInnerTerminalCase, if_neg h1, if_neg h2]
    refine ⟨trivial, ?_, ?_⟩
    · simp only [SolverState.incDrawn, SolverState.incTotal]
      exact getD_inc_self _ ip hd
    · simp only [SolverState.incDrawn, SolverState.incTotal]
      exact getD_inc_self _ ip ht

/-- C8 witness: the three terminal outcomes evaluated on concrete counters —
in particular a winning terminal seen with the opponent as mover adds 2 to the
total counter. -/
theorem C8_witness :
    (Solver.solveInnerTerminalCase 0 0 1 1 0 ⟨[0], [0], [0]⟩).1 = none ∧
    (Solver.solveInnerTerminalCase 0 0 1 1 0 ⟨[0], [0], [0]⟩).2.num_winning_branches.getD 0 0 =
      (SolverState.mk [0] [0] [0]).num_winning_branches.getD 0 0 + 1 ∧
    (Solver.solveInnerTerminalCase 0 0 1 1 0 ⟨[0], [0], [0]⟩).2.num_total_branches.getD 0 0 =
      (SolverState.mk [0] [0] [0]).num_total_branches.getD 0 0 + 2 :=
  (C8_terminal_counters 0 0 1 1 0 ⟨[0], [0], [0]⟩ (by decide) (by decide) (by decide)).2.1
    rfl (by decide)

/-- C10: when the root loop completes with no forced win found and every
winning-branch counter is zero (so no pit has a strictly positive ratio),
`Solver::solve` returns pit index 0 with `guaranteedWin = false` — the
fallback argmax is initialised to index 0 and only a strictly greater ratio
ever replaces it, regardless of whether pit 0 is a legal move. -/
theorem C10_fallback_default_zero (fuel : Nat) (bs : BoardState) (gme : GameMechanicsExecutor)
    (st : SolverState)
    (hroot : Solver.solveRootLoop fuel bs gme gme.active_player_index 0 bs.getNumPits
      ⟨List.replicate bs.getNumPits 0, List.replicate bs.getNumPits 0,
        List.replicate bs.getNumPits 0⟩ = some (none, st))
    (hw : ∀ i, st.num_winning_branches.getD i 0 = 0) :
    Solver.solve fuel bs gme = some (0, false) := by
  simp only [Solver.solve, hroot]
  rw [Solver.fallbackLoop_zero st.num_winning_branches st.num_total_branches hw
    bs.getNumPits 0 0]

/-- C10 witness: a board where pit 0 is empty (an illegal root move) and no
branch ever records a win — `solve` still answers pit 0, not guaranteed. -/
theorem C10_witness :
    Solver.solve 10 ⟨⟨[0, 1], 0⟩, ⟨[5, 5], 0⟩⟩ ⟨0⟩ = some (0, false) :=
  C10_fallback_default_zero 10 ⟨⟨[0, 1], 0⟩, ⟨[5, 5], 0⟩⟩ ⟨0⟩
    ⟨[0, 0], [0, 0], [0, 0]⟩ (by decide)
    (fun i => by
      match i with
      | 0 => rfl
      | 1 => rfl
      | n + 2 => rfl)
